import Mathlib

/-!
Verification of the reasoning-orchestrator core of the knowledge-assistant
agent (`src/core/agent.py`), as a shallow embedding.

Modelling conventions:
* Python `str` values are `List Char`.
* Python JSON values (results of `json.loads`) are `JVal`; Python numbers are
  `PyNum`, with `float` values represented exactly as rationals (binary
  floating-point rounding is not modelled; no claim below depends on the
  rounded value of a float, only on order against 0 and 1 and on
  (non-)emptiness of renderings).
* Python exceptions are `PyExc`; code that may raise is modelled in `Except
  PyExc`.  The payload of internally raised exceptions (`AttributeError` /
  `TypeError` message strings) never flows into any returned value of the
  orchestrator, so those payloads are modelled as empty strings.
* The LLM collaborator (`core/llm.call_llm`) is an external network call; a
  run's sequence of model replies is an oracle (`Env`): the initial decision
  text, and per-round reflection and confidence-scoring texts.
* The tool registry holds `search` / `echo` / `summarize`.  `echo` is pure and
  modelled from its source; `search` and `summarize` are network/LLM-backed
  and their outputs are oracle functions (their Python bodies catch their own
  failures and return strings, so they never raise).
-/

namespace Agent

/-! ### Python string primitives -/

/-- The single-quote character `'` (used by `str.replace("'", '"')`). -/
def qChar : Char := Char.ofNat 39

/-- The `{` character. -/
def lbr : Char := Char.ofNat 123

/-- The `}` character. -/
def rbr : Char := Char.ofNat 125

/-- Whitespace as stripped by Python `str.strip()` (ASCII part; the exotic
Unicode space characters are not modelled — no string handled in the claims
contains them). -/
def pyIsSpace (c : Char) : Bool :=
  c = ' ' || c = '\t' || c = '\n' || c = '\r' || c = Char.ofNat 11 || c = Char.ofNat 12

/-- Python `str.strip()`. -/
def pyStrip (s : List Char) : List Char :=
  ((s.dropWhile pyIsSpace).reverse.dropWhile pyIsSpace).reverse

/-- Python `str.replace(a, b)` for single-character patterns. -/
def replaceChar (a b : Char) (s : List Char) : List Char :=
  s.map (fun c => if c = a then b else c)

/-- `startsWithL p s` : `s` begins with `p`. -/
def startsWithL : List Char → List Char → Bool
  | [], _ => true
  | _ :: _, [] => false
  | a :: as, b :: bs => a = b && startsWithL as bs

/-- Substring containment (Python `in` on strings). -/
def containsSub (needle : List Char) : List Char → Bool
  | [] => startsWithL needle []
  | c :: rest => startsWithL needle (c :: rest) || containsSub needle rest

/-! ### Python / JSON value model -/

/-- A Python number as produced by `json.loads` / `float(...)`:
JSON integer literals become arbitrary-precision `int`s, everything else
becomes a `float` (value kept as an exact rational), with the IEEE special
values Python's `json` accepts (`NaN`, `Infinity`, `-Infinity`) kept
symbolic. -/
inductive PyNum where
  | int (n : ℤ)
  | float (q : ℚ)
  | nan
  | inf
  | ninf
deriving DecidableEq, Repr

/-- A JSON value as returned by Python's `json.loads`.  Objects keep their
members in source order; duplicate keys are resolved by `pyGet` (last wins),
matching Python dict construction. -/
inductive JVal where
  | null
  | bool (b : Bool)
  | num (v : PyNum)
  | str (s : List Char)
  | arr (xs : List JVal)
  | obj (kvs : List (List Char × JVal))

/-- Python `dict.get(k)` on a JSON-parsed object: last binding wins. -/
def pyGet : List (List Char × JVal) → List Char → Option JVal
  | [], _ => none
  | (k, v) :: rest, key =>
    match pyGet rest key with
    | some r => some r
    | none => if k = key then some v else none

/-- Python `dict.get(k, d)`. -/
def pyGetD (kvs : List (List Char × JVal)) (key : List Char) (d : JVal) : JVal :=
  (pyGet kvs key).getD d

/-- Python `k in dict`. -/
def hasKey (kvs : List (List Char × JVal)) (key : List Char) : Bool :=
  (pyGet kvs key).isSome

/-! ### `json.loads`

A recursive-descent model of Python's `json.loads` in its default (strict)
configuration: JSON whitespace is ` \t\n\r`; object keys are strings with no
trailing commas allowed; strings reject raw control characters below 0x20 and
support the standard escapes plus `\uXXXX` (surrogate pairs are combined;
a *lone* surrogate — which CPython would keep as a surrogate code unit that a
Lean `Char` cannot represent — maps to the NUL character, a divergence no
claim depends on); numbers follow the JSON grammar, with integer literals
becoming `PyNum.int` and fractional/exponent literals `PyNum.float`; the
non-standard constants `NaN`, `Infinity` and `-Infinity` are accepted, as
CPython does by default.  Recursion is fuelled; `jsonLoads` supplies fuel
larger than the input length, which bounds the nesting depth. -/

/-- JSON whitespace skip (`json.decoder` skips ` \t\n\r`). -/
def skipWs (s : List Char) : List Char :=
  s.dropWhile (fun c => c = ' ' || c = '\t' || c = '\n' || c = '\r')

def isDigitC (c : Char) : Bool := '0' ≤ c && c ≤ '9'

def digitVal (c : Char) : Nat := c.toNat - 48

def natOfDigits (ds : List Char) : Nat :=
  ds.foldl (fun acc c => 10 * acc + digitVal c) 0

def hexVal (c : Char) : Option Nat :=
  if '0' ≤ c && c ≤ '9' then some (c.toNat - 48)
  else if 'a' ≤ c && c ≤ 'f' then some (c.toNat - 87)
  else if 'A' ≤ c && c ≤ 'F' then some (c.toNat - 55)
  else none

/-- Parse a JSON number (the `NUMBER_RE` regex of `json.scanner`):
`(-?(0|[1-9]\d*))(\.\d+)?([eE][+-]?\d+)?`.  Integer-only matches give a
Python `int`, otherwise a `float`. -/
def parseNumber (s : List Char) : Option (PyNum × List Char) :=
  let signed : Bool × List Char :=
    match s with
    | c :: r => if c = '-' then (true, r) else (false, s)
    | [] => (false, s)
  let neg := signed.1
  let s1 := signed.2
  let intPart : Option (Nat × List Char) :=
    match s1 with
    | c :: r =>
      if c = '0' then some (0, r)
      else if isDigitC c then
        let ds := r.takeWhile isDigitC
        some (natOfDigits (c :: ds), r.drop ds.length)
      else none
    | [] => none
  match intPart with
  | none => none
  | some (ip, s2) =>
    let fracPart : Option (List Char × List Char) :=
      match s2 with
      | c :: r =>
        if c = '.' then
          let ds := r.takeWhile isDigitC
          if ds = [] then none else some (ds, r.drop ds.length)
        else none
      | [] => none
    let s3 := match fracPart with | some (_, r) => r | none => s2
    let expPart : Option (Int × List Char) :=
      match s3 with
      | c :: r =>
        if c = 'e' || c = 'E' then
          let esigned : Bool × List Char :=
            match r with
            | e :: r2 => if e = '-' then (true, r2) else if e = '+' then (false, r2) else (false, r)
            | [] => (false, r)
          let ds := esigned.2.takeWhile isDigitC
          if ds = [] then none
          else
            let ev : Int := natOfDigits ds
            some (if esigned.1 then -ev else ev, esigned.2.drop ds.length)
        else none
      | [] => none
    let rest := match expPart with | some (_, r) => r | none => s3
    match fracPart, expPart with
    | none, none =>
      some (.int (if neg then -(ip : ℤ) else (ip : ℤ)), s2)
    | _, _ =>
      let fds := match fracPart with | some (ds, _) => ds | none => []
      let mant : ℤ := ip * 10 ^ fds.length + natOfDigits fds
      let mant : ℤ := if neg then -mant else mant
      let e : ℤ := match expPart with | some (ev, _) => ev | none => 0
      let q : ℚ :=
        if 0 ≤ e then mkRat (mant * (10 : ℤ) ^ e.toNat) (10 ^ fds.length)
        else mkRat mant (10 ^ fds.length * 10 ^ (-e).toNat)
      some (.float q, rest)

/-- Parse the body of a JSON string (opening quote already consumed). -/
def parseStr : Nat → List Char → Option (List Char × List Char)
  | 0, _ => none
  | _, [] => none
  | fuel + 1, c :: rest =>
    if c = '"' then some ([], rest)
    else if c = '\\' then
      match rest with
      | [] => none
      | e :: r2 =>
        let simple : Option Char :=
          if e = '"' then some '"'
          else if e = '\\' then some '\\'
          else if e = '/' then some '/'
          else if e = 'b' then some (Char.ofNat 8)
          else if e = 'f' then some (Char.ofNat 12)
          else if e = 'n' then some '\n'
          else if e = 'r' then some '\r'
          else if e = 't' then some '\t'
          else none
        match simple with
        | some ch =>
          match parseStr fuel r2 with
          | some (tail, rem) => some (ch :: tail, rem)
          | none => none
        | none =>
          if e = 'u' then
            match r2 with
            | h1 :: h2 :: h3 :: h4 :: r3 =>
              match hexVal h1, hexVal h2, hexVal h3, hexVal h4 with
              | some a, some b, some c2, some d =>
                let n := ((a * 16 + b) * 16 + c2) * 16 + d
                if 0xD800 ≤ n && n ≤ 0xDBFF then
                  -- possible surrogate pair
                  match r3 with
                  | '\\' :: 'u' :: g1 :: g2 :: g3 :: g4 :: r4 =>
                    match hexVal g1, hexVal g2, hexVal g3, hexVal g4 with
                    | some a2, some b2, some c3, some d2 =>
                      let m := ((a2 * 16 + b2) * 16 + c3) * 16 + d2
                      if 0xDC00 ≤ m && m ≤ 0xDFFF then
                        let cp := 0x10000 + (n - 0xD800) * 0x400 + (m - 0xDC00)
                        match parseStr fuel r4 with
                        | some (tail, rem) => some (Char.ofNat cp :: tail, rem)
                        | none => none
                      else
                        match parseStr fuel r3 with
                        | some (tail, rem) => some (Char.ofNat n :: tail, rem)
                        | none => none
                    | _, _, _, _ =>
                      match parseStr fuel r3 with
                      | some (tail, rem) => some (Char.ofNat n :: tail, rem)
                      | none => none
                  | _ =>
                    match parseStr fuel r3 with
                    | some (tail, rem) => some (Char.ofNat n :: tail, rem)
                    | none => none
                else
                  match parseStr fuel r3 with
                  | some (tail, rem) => some (Char.ofNat n :: tail, rem)
                  | none => none
              | _, _, _, _ => none
            | _ => none
          else none
    else if c.toNat < 32 then none   -- strict mode: raw control characters rejected
    else
      match parseStr fuel rest with
      | some (tail, rem) => some (c :: tail, rem)
      | none => none

mutual

/-- Parse one JSON value at the head of the input (leading whitespace already
skipped by the caller). -/
def parseVal : Nat → List Char → Option (JVal × List Char)
  | 0, _ => none
  | fuel + 1, s =>
    match s with
    | [] => none
    | c :: rest =>
      if c = '"' then
        match parseStr (fuel + 1) rest with
        | some (str, rem) => some (.str str, rem)
        | none => none
      else if c = lbr then
        let s1 := skipWs rest
        match s1 with
        | c2 :: r2 =>
          if c2 = rbr then some (.obj [], r2)
          else
            match parseMembers fuel s1 [] with
            | some (kvs, rem) => some (.obj kvs, rem)
            | none => none
        | [] => none
      else if c = '[' then
        let s1 := skipWs rest
        match s1 with
        | c2 :: r2 =>
          if c2 = ']' then some (.arr [], r2)
          else
            match parseElems fuel s1 [] with
            | some (xs, rem) => some (.arr xs, rem)
            | none => none
        | [] => none
      else if startsWithL ("true".data) s then some (.bool true, s.drop 4)
      else if startsWithL ("false".data) s then some (.bool false, s.drop 5)
      else if startsWithL ("null".data) s then some (.null, s.drop 4)
      else
        match parseNumber s with
        | some (v, rem) => some (.num v, rem)
        | none =>
          if startsWithL ("NaN".data) s then some (.num .nan, s.drop 3)
          else if startsWithL ("Infinity".data) s then some (.num .inf, s.drop 8)
          else if startsWithL ("-Infinity".data) s then some (.num .ninf, s.drop 9)
          else none

/-- Parse object members, starting at a key (no leading whitespace). -/
def parseMembers : Nat → List Char → List (List Char × JVal) →
    Option (List (List Char × JVal) × List Char)
  | 0, _, _ => none
  | fuel + 1, s, acc =>
    match s with
    | '"' :: r =>
      match parseStr (fuel + 1) r with
      | some (key, r1) =>
        match skipWs r1 with
        | ':' :: r2 =>
          match parseVal fuel (skipWs r2) with
          | some (v, r3) =>
            let acc' := acc ++ [(key, v)]
            match skipWs r3 with
            | c :: r4 =>
              if c = ',' then parseMembers fuel (skipWs r4) acc'
              else if c = rbr then some (acc', r4)
              else none
            | [] => none
          | none => none
        | _ => none
      | none => none
    | _ => none

/-- Parse array elements, starting at a value (no leading whitespace). -/
def parseElems : Nat → List Char → List JVal → Option (List JVal × List Char)
  | 0, _, _ => none
  | fuel + 1, s, acc =>
    match parseVal fuel s with
    | some (v, r1) =>
      let acc' := acc ++ [v]
      match skipWs r1 with
      | c :: r2 =>
        if c = ',' then parseElems fuel (skipWs r2) acc'
        else if c = ']' then some (acc', r2)
        else none
      | [] => none
    | none => none

end

/-- Python `json.loads` on a string: parse exactly one document, allowing
surrounding whitespace, rejecting trailing data.  `none` models the raised
`JSONDecodeError` (always caught by the callers modelled here). -/
def jsonLoads (s : List Char) : Option JVal :=
  match parseVal (s.length + 1) (skipWs s) with
  | some (v, rest) => if skipWs rest = [] then some v else none
  | none => none

/-! ### The brace-block regex

`re.search(r"\{.*\}", text, re.DOTALL)` matches greedily from the leftmost
`{` that is followed by some later `}`, through the *last* `}` of the whole
text.  If the leftmost `{` has no `}` after it, no later `{` has one either,
so the search fails exactly when there is no `{` strictly before the last
`}`. -/

/-- Drop characters until the first `{` (that character included);
`none` when there is no `{`. -/
def dropToOpen : List Char → Option (List Char)
  | [] => none
  | c :: r => if c = lbr then some (c :: r) else dropToOpen r

/-- Drop characters until the first `}` (that character included);
`none` when there is no `}`. -/
def dropToClose : List Char → Option (List Char)
  | [] => none
  | c :: r => if c = rbr then some (c :: r) else dropToClose r

/-- Keep the longest front segment of `l` ending at the last `}` of `l`. -/
def upToLastClose (l : List Char) : Option (List Char) :=
  (dropToClose l.reverse).map List.reverse

/-- `m.group(0)` of `re.search(r"\{.*\}", text, re.DOTALL)`. -/
def firstBraceBlock (s : List Char) : Option (List Char) :=
  match dropToOpen s with
  | none => none
  | some [] => none
  | some (c :: tl) =>
    match upToLastClose tl with
    | none => none
    | some body => some (c :: body)

/-! ### The decision parser (`Agent._parse_json_safe`) -/

def thoughtKey : List Char := "thought".data
def faKey : List Char := "final_answer".data
def actionKey : List Char := "action".data
def toolKey : List Char := "tool".data
def inputKey : List Char := "input".data
def relevanceKey : List Char := "relevance".data
def reasonKey : List Char := "reason".data

/-- The parse-failure marker prepended by the fallback branch. -/
def invalidMark : List Char := "[Invalid JSON] ".data

/-- The fallback decision fabricated when every parsing strategy fails
(`_parse_json_safe`, final `return`). -/
def fallbackDecision (text : List Char) : JVal :=
  .obj [(thoughtKey, .str ("(model did not return valid JSON)".data)),
        (faKey, .str (invalidMark ++ (pyStrip text).take 400))]

/-- `Agent._parse_json_safe`: direct `json.loads`; else extract the first
brace-delimited block, normalise single quotes to double quotes and
`json.loads` that; else fabricate `fallbackDecision`.  Total by
construction — every `json.loads` failure is caught. -/
def parse_json_safe (text : List Char) : JVal :=
  match jsonLoads text with
  | some v => v
  | none =>
    match firstBraceBlock text with
    | some blk =>
      match jsonLoads (replaceChar qChar '"' blk) with
      | some v => v
      | none => fallbackDecision text
    | none => fallbackDecision text

/-! ### Python `str()` and `float()` on JSON values -/

/-- Decimal digits of a natural number (fuelled; fuel `n + 1` suffices). -/
def natDigitsAux : Nat → Nat → List Char
  | 0, _ => []
  | _ + 1, 0 => []
  | fuel + 1, n => natDigitsAux fuel (n / 10) ++ [Char.ofNat (48 + n % 10)]

/-- Decimal rendering of a natural number. -/
def natStr (n : Nat) : List Char :=
  if n = 0 then ['0'] else natDigitsAux (n + 1) n

/-- Decimal rendering of an integer. -/
def intStr (n : ℤ) : List Char :=
  if n < 0 then '-' :: natStr (-n).toNat else natStr n.toNat

/-- Python `str()` of a number.  Integers render exactly; for floats Python
prints the shortest decimal for the IEEE value, which an exact-rational model
cannot reproduce — a float is rendered here as an exact fraction.  No claim
inspects the rendered text of a number beyond it being non-empty and free of
whitespace. -/
def pyStrNum : PyNum → List Char
  | .int n => intStr n
  | .float q => intStr q.num ++ ('/' :: natStr q.den)
  | .nan => "nan".data
  | .inf => "inf".data
  | .ninf => "-inf".data

/-- Python `str()` of a JSON-parsed value, as applied by the orchestrator to
`thought` / `tool` / `input` / `final_answer` fields.  Container reprs are
simplified (single-quote/precision details of `repr` are not modelled); no
claim inspects the rendered text of a container beyond non-emptiness. -/
def pyStr : JVal → List Char
  | .str s => s
  | .null => "None".data
  | .bool true => "True".data
  | .bool false => "False".data
  | .num v => pyStrNum v
  | .arr _ => ['[', ']']
  | .obj _ => [lbr, rbr]

/-- Python `float()` applied to a string (`float("0.5")`, `float("inf")`, …).
Underscore digit grouping is not modelled.  Used only inside the confidence
scorer, whose claims do not depend on which strings convert — any successful
conversion is clamped afterwards. -/
def pyFloatOfStr (s0 : List Char) : Option PyNum :=
  let s := pyStrip s0
  let core : Bool × List Char :=
    match s with
    | c :: r => if c = '-' then (true, r) else if c = '+' then (false, r) else (false, s)
    | [] => (false, s)
  let neg := core.1
  let t := (core.2.map Char.toLower)
  if t = "inf".data || t = "infinity".data then some (if neg then .ninf else .inf)
  else if t = "nan".data then some .nan
  else
    let ds := core.2.takeWhile isDigitC
    let r1 := core.2.drop ds.length
    let fr : Option (List Char × List Char) :=
      match r1 with
      | '.' :: r2 => some (r2.takeWhile isDigitC, r2.drop (r2.takeWhile isDigitC).length)
      | _ => some ([], r1)
    match fr with
    | none => none
    | some (fds, r2) =>
      if ds = [] && fds = [] then none
      else
        let ex : Option (Int × List Char) :=
          match r2 with
          | c :: r3 =>
            if c = 'e' || c = 'E' then
              let es : Bool × List Char :=
                match r3 with
                | e :: r4 => if e = '-' then (true, r4) else if e = '+' then (false, r4) else (false, r3)
                | [] => (false, r3)
              let eds := es.2.takeWhile isDigitC
              if eds = [] then none
              else some ((if es.1 then -(natOfDigits eds : ℤ) else (natOfDigits eds : ℤ)),
                         es.2.drop eds.length)
            else some (0, r2)
          | [] => some (0, r2)
        match ex with
        | none => none
        | some (e, r5) =>
          if r5 ≠ [] then none
          else
            let mant : ℤ := natOfDigits ds * 10 ^ fds.length + natOfDigits fds
            let mant : ℤ := if neg then -mant else mant
            let q : ℚ :=
              if 0 ≤ e then mkRat (mant * (10 : ℤ) ^ e.toNat) (10 ^ fds.length)
              else mkRat mant (10 ^ fds.length * 10 ^ (-e).toNat)
            some (.float q)

/-- Python `float(value)` on a JSON-parsed value: numbers convert (ints
widen), booleans convert to 0.0 / 1.0, numeric strings parse; `None`, lists
and dicts raise `TypeError` (`none` here). -/
def pyFloat : JVal → Option PyNum
  | .num (.int n) => some (.float n)
  | .num v => some v
  | .bool b => some (.float (if b then 1 else 0))
  | .str s => pyFloatOfStr s
  | _ => none

/-! ### Exceptions, tools, steps -/

/-- A raised Python exception: its type name, its message, and the text
`traceback.format_exc(limit=1)` renders for it.  For exceptions raised by the
orchestrator's own code the message/traceback never reach a returned value,
so they are left empty. -/
structure PyExc where
  typeName : List Char
  msg : List Char
  tb : List Char
deriving DecidableEq, Repr

/-- The `AttributeError`/`TypeError` raised when `_parse_json_safe` yields a
non-dict and the caller immediately calls `.get` on it (or, in the scorer,
assigns `parsed["relevance"]`). -/
def nonDictExc : PyExc := ⟨"TypeError".data, [], []⟩

/-- `decision.get(...)` — the first attribute access on the parsed decision;
raises when the parsed JSON document is not an object. -/
def asObj : JVal → Except PyExc (List (List Char × JVal))
  | .obj kvs => .ok kvs
  | _ => .error nonDictExc

/-- A tool capability: `call(input: str) -> str`, may raise. -/
structure ToolImpl where
  call : List Char → Except PyExc (List Char)

/-- The tool registry, as the orchestrator sees it: lookup by exact name. -/
def Registry : Type := List Char → Option ToolImpl

/-- `core.tools.echo`: `f"Echo: {text}"`. -/
def echoCall (s : List Char) : List Char := "Echo: ".data ++ s

/-- `core.tools.TOOL_REGISTRY`.  `search` and `summarize` are backed by the
network / the LLM; their Python bodies catch all their own failures and return
strings, so they are modelled as oracle string functions that never raise.
`echo` is pure and modelled from its source. -/
def TOOL_REGISTRY (searchF summarizeF : List Char → List Char) : Registry :=
  fun n =>
    if n = "search".data then some ⟨fun q => .ok (searchF q)⟩
    else if n = "echo".data then some ⟨fun q => .ok (echoCall q)⟩
    else if n = "summarize".data then some ⟨fun q => .ok (summarizeF q)⟩
    else none

/-- The `Step` dataclass.  `thought` and `confidence_reason` hold whatever
JSON value the model supplied (the dataclass does not enforce its `str`
annotation). -/
structure Step where
  idx : Nat
  thought : JVal
  tool : Option (List Char) := none
  tool_input : Option (List Char) := none
  observation : Option (List Char) := none
  confidence : Option PyNum := none
  confidence_reason : Option JVal := none
  final_answer : Option (List Char) := none

/-- `MAX_STEPS = 6`. -/
def MAX_STEPS : Nat := 6

/-- Default thought recorded when the decision has no `thought` field. -/
def noThoughtD : JVal := .str "(no thought)".data

def noData : List Char := "(no data)".data

def maxStepsMsg : List Char := "⚠️ Max reasoning steps reached — stopping.".data

def unknownToolMsg (t : List Char) : List Char :=
  "⚠️ Unknown or missing tool ".data ++ [qChar] ++ t ++ [qChar] ++ ".".data

def repeatedMsg (t x : List Char) : List Char :=
  "⚠️ Repeated action ".data ++ t ++ "(".data ++ x ++ ") — stopping.".data

/-- `f"[Tool Error] {type(e).__name__}: {e}\n{traceback.format_exc(limit=1)}"`. -/
def toolErrMsg (e : PyExc) : List Char :=
  "[Tool Error] ".data ++ e.typeName ++ ": ".data ++ e.msg ++ ['\n'] ++ e.tb

/-- The observation recorded for one tool invocation (lines 162–165):
the tool's output, the `"(no data)"` placeholder when that output is the
empty string, or the tool-error text when the call raised. -/
def obsOf (impl : ToolImpl) (x : List Char) : List Char :=
  match impl.call x with
  | .ok o => if o = [] then noData else o
  | .error e => toolErrMsg e

/-! ### The confidence scorer (`Agent._score_observation`) -/

/-- `max(0.0, min(1.0, r))` with Python's `min`/`max` comparison semantics
(each returns its first argument when the comparison with `nan` is false):
`min(1.0, nan) = 1.0`, so `nan` clamps to `1.0`; infinities clamp to the
nearest bound. -/
def clampPy : PyNum → PyNum
  | .float q => .float (max 0 (min 1 q))
  | .int n => .float (max 0 (min 1 (n : ℚ)))
  | .nan => .float 1
  | .inf => .float 1
  | .ninf => .float 0

/-- `Agent._score_observation`, as a function of the raw text the LLM
returned for the confidence prompt.  Returns the pair the orchestrator reads
(`score.get("relevance")`, `score.get("reason")`).  When `_parse_json_safe`
yields a non-dict, `parsed.get` raises inside the `try`, and the `except`
handler's `parsed["relevance"] = None` then raises `TypeError` out of the
method. -/
def scoreObservation (raw : List Char) : Except PyExc (Option PyNum × Option JVal) :=
  match parse_json_safe raw with
  | .obj kvs =>
    let r0 := pyGetD kvs relevanceKey (.num (.float 0))
    match pyFloat r0 with
    | some v => .ok (some (clampPy v), pyGet kvs reasonKey)
    | none => .ok (none, pyGet kvs reasonKey)
  | _ => .error nonDictExc

/-! ### The reasoning loop (`Agent._reason`) -/

/-- One run's oracle of model replies: the reply to the initial decision
prompt, and the replies to the round-`i` reflection and confidence prompts.
The prompts themselves (templates filled with question/context/observation)
do not influence control flow and are not modelled. -/
structure Env where
  initRaw : List Char
  reflectRaw : Nat → List Char
  scoreRaw : Nat → List Char

/-- The raw model text whose parse drives the decision used at round `k+1`
(`roundRaw env 0` feeds round 1). -/
def roundRaw (env : Env) : Nat → List Char
  | 0 => env.initRaw
  | k + 1 => env.reflectRaw (k + 1)

/-- Mutable state of `_reason` at the top of a loop iteration: the finished
steps, the current (last, still mutable) step, the current decision's dict
entries, the loop-guard set (insertion order kept), the snapshots passed to
`on_step` so far, and the tool invocations performed so far.  `emitted` and
`calls` are instrumentation recording the calls the Python code makes; they
are not data the Python code stores. -/
structure LoopSt where
  prev : List Step
  cur : Step
  kvs : List (List Char × JVal)
  seen : List (List Char × List Char)
  emitted : List Step
  calls : List (List Char × List Char)

/-- What a completed run returns / recorded. -/
structure RunResult where
  steps : List Step
  final : List Char
  seen : List (List Char × List Char)
  emitted : List Step
  calls : List (List Char × List Char)

/-- The `for i in range(1, MAX_STEPS + 1)` body of `_reason`; `fuel` counts
the remaining iterations (`i + fuel = MAX_STEPS + 1` at every call from
`reason`), and exhausted fuel is the fall-through to the step-limit
message. -/
def loop (reg : Registry) (env : Env) : Nat → Nat → LoopSt → Except PyExc RunResult
  | _, 0, st =>
    -- max steps reached
    let cur' := { st.cur with final_answer := some maxStepsMsg }
    .ok ⟨st.prev ++ [cur'], maxStepsMsg, st.seen, st.emitted, st.calls⟩
  | i, fuel + 1, st =>
    if hasKey st.kvs faKey then
      -- final answer
      let fa := pyStrip (pyStr (pyGetD st.kvs faKey (.str [])))
      let cur' := { st.cur with final_answer := some fa }
      .ok ⟨st.prev ++ [cur'], fa, st.seen, st.emitted, st.calls⟩
    else
      match asObj (pyGetD st.kvs actionKey (.obj [])) with
      | .error e => .error e
      | .ok acObj =>
        let t := pyStrip (pyStr (pyGetD acObj toolKey (.str [])))
        let x := pyStrip (pyStr (pyGetD acObj inputKey (.str [])))
        match reg t with
        | none =>
          let msg := unknownToolMsg t
          let cur' := { st.cur with observation := some msg, final_answer := some msg }
          .ok ⟨st.prev ++ [cur'], msg, st.seen, st.emitted, st.calls⟩
        | some impl =>
          if t = [] then
            let msg := unknownToolMsg t
            let cur' := { st.cur with observation := some msg, final_answer := some msg }
            .ok ⟨st.prev ++ [cur'], msg, st.seen, st.emitted, st.calls⟩
          else if (t, x) ∈ st.seen then
            let msg := repeatedMsg t x
            let cur' := { st.cur with observation := some msg, final_answer := some msg }
            .ok ⟨st.prev ++ [cur'], msg, st.seen, st.emitted, st.calls⟩
          else
            let seen' := st.seen ++ [(t, x)]
            let calls' := st.calls ++ [(t, x)]
            let obs := obsOf impl x
            let curA := { st.cur with tool := some t, tool_input := some x,
                                      observation := some obs }
            match scoreObservation (env.scoreRaw i) with
            | .error e => .error e
            | .ok sc =>
              let curB := { curA with confidence := sc.1, confidence_reason := sc.2 }
              match asObj (parse_json_safe (env.reflectRaw i)) with
              | .error e => .error e
              | .ok kvs' =>
                let nxt : Step := { idx := i + 1,
                                    thought := pyGetD kvs' thoughtKey noThoughtD }
                loop reg env (i + 1) fuel
                  ⟨st.prev ++ [curB], nxt, kvs', seen', st.emitted ++ [curB, nxt], calls'⟩

/-- `Agent._reason`: parse the initial decision, open Step 1, emit it, and
iterate.  A thrown `Except.error` models an exception escaping `_reason`
(which the Python code does not catch). -/
def reason (reg : Registry) (env : Env) : Except PyExc RunResult :=
  match asObj (parse_json_safe env.initRaw) with
  | .error e => .error e
  | .ok kvs0 =>
    let s1 : Step := { idx := 1, thought := pyGetD kvs0 thoughtKey noThoughtD }
    loop reg env 1 MAX_STEPS ⟨[], s1, kvs0, [], [s1], []⟩

/-- `Agent._render` (number formatting approximated by `pyStrNum`; no claim
inspects the rendered transcript). -/
def renderStep (s : Step) : List Char :=
  "### Step ".data ++ natStr s.idx ++ ['\n'] ++
  "Thought: ".data ++ pyStr s.thought ++ ['\n'] ++
  (match s.tool with
   | some t =>
     if t ≠ [] then
       "Action: ".data ++ t ++ ['(', qChar] ++ (s.tool_input.getD []) ++ [qChar, ')', '\n']
     else []
   | none => []) ++
  (match s.observation with
   | some o => if o ≠ [] then "Observation: ".data ++ o ++ ['\n'] else []
   | none => []) ++
  (match s.confidence with
   | some c => "Relevance: ".data ++ pyStrNum c ++ " — ".data ++
               (match s.confidence_reason with | some r => pyStr r | none => []) ++ ['\n']
   | none => []) ++
  (match s.final_answer with
   | some f => if f ≠ [] then "✅ Final Answer: ".data ++ f ++ ['\n'] else []
   | none => []) ++ ['\n']

def render (steps : List Step) (finalAnswer : List Char) : List Char :=
  (steps.map renderStep).foldr (· ++ ·) [] ++ "✅ Final Answer: ".data ++ finalAnswer

/-- `Agent.run`: the reasoning core, then the rendered transcript.  The
memory writes are external side effects with no influence on the returned
value. -/
def run (reg : Registry) (env : Env) : Except PyExc (List Char) :=
  (reason reg env).map (fun r => render r.steps r.final)

/-- `Agent.run_stream`: the reasoning core; the generator yields each
completed `Step` and the `on_step` sink receives the snapshots recorded in
`RunResult.emitted`, in call order. -/
def run_stream (reg : Registry) (env : Env) : Except PyExc (List Step) :=
  (reason reg env).map RunResult.steps

/-! ### Result projections (for stating run-level properties uniformly;
a raised exception yields no steps/answer) -/

def resSteps (x : Except PyExc RunResult) : List Step :=
  match x with | .ok r => r.steps | .error _ => []

def resFinal (x : Except PyExc RunResult) : List Char :=
  match x with | .ok r => r.final | .error _ => []

def resSeen (x : Except PyExc RunResult) : List (List Char × List Char) :=
  match x with | .ok r => r.seen | .error _ => []

def resEmitted (x : Except PyExc RunResult) : List Step :=
  match x with | .ok r => r.emitted | .error _ => []

def resCalls (x : Except PyExc RunResult) : List (List Char × List Char) :=
  match x with | .ok r => r.calls | .error _ => []

/-! ### Decision views

Read-outs of a parsed decision exactly as the loop body reads it (lines
138–145 of `agent.py`): an *action decision* has no `final_answer` key and a
dict-valued `action` whose `tool` / `input` fields stringify-and-strip to the
given pair; a *final decision* has a `final_answer` key, whose value
stringifies-and-strips to the given answer. -/

/-- The `(tool_name, tool_input)` pair the loop reads from an action
decision, or `none` if the decision is final or its `action` value is not a
dict. -/
def kvsAction (kvs : List (List Char × JVal)) : Option (List Char × List Char) :=
  if hasKey kvs faKey then none
  else
    match pyGetD kvs actionKey (.obj []) with
    | .obj ak => some (pyStrip (pyStr (pyGetD ak toolKey (.str []))),
                       pyStrip (pyStr (pyGetD ak inputKey (.str []))))
    | _ => none

/-- The action pair decided by a raw model text. -/
def decisionAction (raw : List Char) : Option (List Char × List Char) :=
  match parse_json_safe raw with
  | .obj kvs => kvsAction kvs
  | _ => none

/-- The (stripped) final answer decided by a raw model text, if it carries a
`final_answer` key. -/
def decisionFinal (raw : List Char) : Option (List Char) :=
  match parse_json_safe raw with
  | .obj kvs =>
    if hasKey kvs faKey then some (pyStrip (pyStr (pyGetD kvs faKey (.str []))))
    else none
  | _ => none

/-- `true` iff the parsed decision is a dict (so the `.get` calls on it do
not raise). -/
def decisionIsDict (raw : List Char) : Bool :=
  match parse_json_safe raw with
  | .obj _ => true
  | _ => false

/-! ### Concrete model outputs for the scenario runs -/

/-- Wrap in braces: `"{" ++ s ++ "}"`. -/
def braced (s : List Char) : List Char := lbr :: (s ++ [rbr])

/-- `"k": "v"` (both as JSON strings). -/
def jfield (k v : List Char) : List Char :=
  ['"'] ++ k ++ "\": \"".data ++ v ++ ['"']

/-- A well-formed action decision text for tool `t` with input `x`. -/
def actionRaw (t x : List Char) : List Char :=
  braced (jfield thoughtKey "need info".data ++ ", \"action\": ".data ++
          braced (jfield toolKey t ++ ", ".data ++ jfield inputKey x))

/-- A well-formed final decision text answering `a`. -/
def finalRaw (a : List Char) : List Char :=
  braced (jfield thoughtKey "done".data ++ ", ".data ++ jfield faKey a)

/-- A well-formed confidence reply. -/
def scoreRawOk : List Char :=
  braced ("\"relevance\": 0.9, ".data ++ jfield reasonKey "ok".data)

/-- A registry with concrete (empty-output) search/summarize oracles. -/
def reg0 : Registry := TOOL_REGISTRY (fun _ => []) (fun _ => [])

/-- The relevance component of a scorer call, `none` when the scorer raised. -/
def scoreRelOf (x : Except PyExc (Option PyNum × Option JVal)) : Option (Option PyNum) :=
  match x with | .ok (r, _) => some r | .error _ => none

/-- The reason component of a scorer call (`none` when the scorer raised,
`some none` when the parsed reply has no `reason` key). -/
def scoreReasonOf (x : Except PyExc (Option PyNum × Option JVal)) : Option (Option JVal) :=
  match x with | .ok (_, r) => some r | .error _ => none

/-- `true` iff the computation returned normally. -/
def isOkE {α : Type} (x : Except PyExc α) : Bool :=
  match x with | .ok _ => true | .error _ => false

/-! ### Concrete runs for the scenario claims -/

/-- Scenario D: every decision is `echo("hi")`. -/
def envD : Env :=
  { initRaw := actionRaw "echo".data "hi".data,
    reflectRaw := fun _ => actionRaw "echo".data "hi".data,
    scoreRaw := fun _ => scoreRawOk }

/-- Case-sensitivity contrast: `echo("hi")`, then `echo("Hi")`, then final. -/
def envCase : Env :=
  { initRaw := actionRaw "echo".data "hi".data,
    reflectRaw := fun i => if i = 1 then actionRaw "echo".data "Hi".data
                           else finalRaw "done".data,
    scoreRaw := fun _ => scoreRawOk }

/-- Trimming contrast: `echo("hi")`, then `echo(" hi ")` (same input after
the orchestrator's strip). -/
def envTrim : Env :=
  { initRaw := actionRaw "echo".data "hi".data,
    reflectRaw := fun _ => actionRaw "echo".data " hi ".data,
    scoreRaw := fun _ => scoreRawOk }

/-- One action round, then a final decision. -/
def envOneAction : Env :=
  { initRaw := actionRaw "echo".data "hi".data,
    reflectRaw := fun _ => finalRaw "done".data,
    scoreRaw := fun _ => scoreRawOk }

/-- A Final decision whose `final_answer` is the empty string. -/
def envEmptyFinal : Env :=
  { initRaw := finalRaw [],
    reflectRaw := fun _ => finalRaw [],
    scoreRaw := fun _ => scoreRawOk }

/-- Six pairwise-distinct action decisions (inputs `x0 … x5`), then actions
forever. -/
def envDistinct : Env :=
  { initRaw := actionRaw "echo".data ("x".data ++ natStr 0),
    reflectRaw := fun i => actionRaw "echo".data ("x".data ++ natStr i),
    scoreRaw := fun _ => scoreRawOk }

/-- The pairwise-distinct action pairs of `envDistinct`. -/
def pDistinct : Nat → List Char × List Char :=
  fun k => ("echo".data, "x".data ++ natStr k)

/-- A tool whose call always raises `ValueError`. -/
def boomImpl : ToolImpl :=
  ⟨fun _ => .error ⟨"ValueError".data, "bad".data, "tb".data⟩⟩

/-- A registry holding one tool whose call always raises `ValueError`. -/
def regBoom : Registry := fun n =>
  if n = "boom".data then some boomImpl else none

/-- A tool that returns the empty string on every input. -/
def blankImpl : ToolImpl := ⟨fun _ => .ok []⟩

/-- A registry holding one tool that returns the empty string. -/
def regBlank : Registry := fun n =>
  if n = "blank".data then some blankImpl else none

/-- A decision dict choosing tool `boom` with input `x`. -/
def kvsBoomAction : List (List Char × JVal) :=
  [(actionKey, .obj [(toolKey, .str "boom".data), (inputKey, .str "x".data)])]

/-- A decision dict choosing tool `blank` with input `q`. -/
def kvsBlankAction : List (List Char × JVal) :=
  [(actionKey, .obj [(toolKey, .str "blank".data), (inputKey, .str "q".data)])]

/-- A loop state at the top of round 1 holding the `boom` action decision. -/
def stBoom : LoopSt :=
  ⟨[], { idx := 1, thought := .str [] }, kvsBoomAction, [], [], []⟩

/-- A loop state at the top of round 1 holding the `blank` action decision. -/
def stBlank : LoopSt :=
  ⟨[], { idx := 1, thought := .str [] }, kvsBlankAction, [], [], []⟩

/-- The raising tool, then a final decision. -/
def envBoom : Env :=
  { initRaw := actionRaw "boom".data "x".data,
    reflectRaw := fun _ => finalRaw "done".data,
    scoreRaw := fun _ => scoreRawOk }

/-- The raising tool, re-issued identically after the fault. -/
def envBoomTwice : Env :=
  { initRaw := actionRaw "boom".data "x".data,
    reflectRaw := fun _ => actionRaw "boom".data "x".data,
    scoreRaw := fun _ => scoreRawOk }

/-! ### Lemmas about the brace-block search and quote replacement -/

theorem dropToOpen_append_of_not_mem {pre : List Char} (h : lbr ∉ pre) (l : List Char) :
    dropToOpen (pre ++ l) = dropToOpen l := by
  induction pre with
  | nil => rfl
  | cons c r ih =>
    have hc : c ≠ lbr := fun hc => h (hc ▸ List.mem_cons_self c r)
    have hr : lbr ∉ r := fun hm => h (List.mem_cons_of_mem c hm)
    simp only [List.cons_append, dropToOpen, if_neg hc]
    exact ih hr

theorem dropToClose_append_of_not_mem {pre : List Char} (h : rbr ∉ pre) (l : List Char) :
    dropToClose (pre ++ l) = dropToClose l := by
  induction pre with
  | nil => rfl
  | cons c r ih =>
    have hc : c ≠ rbr := fun hc => h (hc ▸ List.mem_cons_self c r)
    have hr : rbr ∉ r := fun hm => h (List.mem_cons_of_mem c hm)
    simp only [List.cons_append, dropToClose, if_neg hc]
    exact ih hr

/-- The regex model extracts exactly the brace-delimited block when the text
around it carries no braces of its own. -/
theorem firstBraceBlock_wrap (pre mid post : List Char)
    (hpre : lbr ∉ pre) (hpost : rbr ∉ post) :
    firstBraceBlock (pre ++ (lbr :: (mid ++ [rbr])) ++ post)
      = some (lbr :: (mid ++ [rbr])) := by
  have h1 : pre ++ (lbr :: (mid ++ [rbr])) ++ post
      = pre ++ (lbr :: (mid ++ [rbr] ++ post)) := by simp
  have h2 : dropToOpen (lbr :: (mid ++ [rbr] ++ post)) = some (lbr :: (mid ++ [rbr] ++ post)) := by
    simp [dropToOpen]
  have h3 : upToLastClose (mid ++ [rbr] ++ post) = some (mid ++ [rbr]) := by
    rw [upToLastClose]
    have h4 : (mid ++ [rbr] ++ post).reverse = post.reverse ++ (rbr :: mid.reverse) := by
      simp
    have h5 : rbr ∉ post.reverse := by simpa using hpost
    rw [h4, dropToClose_append_of_not_mem h5]
    simp [dropToClose]
  rw [h1, firstBraceBlock, dropToOpen_append_of_not_mem hpre]
  simp only [h2, h3]

theorem replaceChar_of_not_mem {a : Char} (b : Char) {s : List Char} (h : a ∉ s) :
    replaceChar a b s = s := by
  induction s with
  | nil => rfl
  | cons c r ih =>
    have hc : c ≠ a := fun hc => h (hc ▸ List.mem_cons_self c r)
    have hr : a ∉ r := fun hm => h (List.mem_cons_of_mem c hm)
    simp only [replaceChar, List.map_cons, if_neg hc]
    exact congrArg (c :: ·) (by simpa [replaceChar] using ih hr)

/-! ### Behaviour of the decision parser by strategy -/

theorem parse_json_safe_direct {t : List Char} {v : JVal} (h : jsonLoads t = some v) :
    parse_json_safe t = v := by
  rw [parse_json_safe, h]

theorem parse_json_safe_fallback_no_block {t : List Char}
    (h1 : jsonLoads t = none) (h2 : firstBraceBlock t = none) :
    parse_json_safe t = fallbackDecision t := by
  rw [parse_json_safe, h1, h2]

theorem parse_json_safe_fallback_bad_block {t b : List Char}
    (h1 : jsonLoads t = none) (h2 : firstBraceBlock t = some b)
    (h3 : jsonLoads (replaceChar qChar '"' b) = none) :
    parse_json_safe t = fallbackDecision t := by
  rw [parse_json_safe, h1, h2]
  simp only [h3]

theorem parse_json_safe_block {t b : List Char} {v : JVal}
    (h1 : jsonLoads t = none) (h2 : firstBraceBlock t = some b)
    (h3 : jsonLoads (replaceChar qChar '"' b) = some v) :
    parse_json_safe t = v := by
  rw [parse_json_safe, h1, h2]
  simp only [h3]

/-- Combined fallback condition: the direct parse failed and the block
strategy either found no block or failed on the quote-normalised block. -/
theorem parse_json_safe_fallback {t : List Char} (h1 : jsonLoads t = none)
    (h2 : firstBraceBlock t = none ∨
      ∃ b, firstBraceBlock t = some b ∧ jsonLoads (replaceChar qChar '"' b) = none) :
    parse_json_safe t = fallbackDecision t := by
  rcases h2 with h2 | ⟨b, hb, hbad⟩
  · exact parse_json_safe_fallback_no_block h1 h2
  · exact parse_json_safe_fallback_bad_block h1 hb hbad

/-! ### Decision-view inversions and loop equations -/

theorem kvsAction_inv {kvs : List (List Char × JVal)} {t x : List Char}
    (h : kvsAction kvs = some (t, x)) :
    hasKey kvs faKey = false ∧
    ∃ ak, pyGetD kvs actionKey (.obj []) = .obj ak ∧
      t = pyStrip (pyStr (pyGetD ak toolKey (.str []))) ∧
      x = pyStrip (pyStr (pyGetD ak inputKey (.str []))) := by
  rw [kvsAction] at h
  cases hfa : hasKey kvs faKey with
  | true => rw [hfa] at h; simp at h
  | false =>
    rw [hfa] at h
    simp only [Bool.false_eq_true, if_false] at h
    refine ⟨rfl, ?_⟩
    rcases hac : pyGetD kvs actionKey (.obj []) with _ | _ | _ | _ | _ | ak <;>
      rw [hac] at h
    case null => exact absurd h (by simp)
    case bool => exact absurd h (by simp)
    case num => exact absurd h (by simp)
    case str => exact absurd h (by simp)
    case arr => exact absurd h (by simp)
    case obj =>
      simp only [Option.some.injEq, Prod.mk.injEq] at h
      exact ⟨ak, rfl, h.1.symm, h.2.symm⟩

theorem decisionAction_inv {raw : List Char} {p : List Char × List Char}
    (h : decisionAction raw = some p) :
    ∃ kvs, parse_json_safe raw = .obj kvs ∧ kvsAction kvs = some p := by
  rw [decisionAction] at h
  rcases hp : parse_json_safe raw with _ | _ | _ | _ | _ | kvs <;> rw [hp] at h <;>
    first
    | exact ⟨kvs, rfl, h⟩
    | exact absurd h (by simp)

theorem decisionIsDict_inv {raw : List Char} (h : decisionIsDict raw = true) :
    ∃ kvs, parse_json_safe raw = .obj kvs := by
  rw [decisionIsDict] at h
  rcases hp : parse_json_safe raw with _ | _ | _ | _ | _ | kvs <;> rw [hp] at h <;>
    first
    | exact ⟨kvs, rfl⟩
    | exact absurd h (by simp)

theorem asObj_inv {v : JVal} {kvs : List (List Char × JVal)}
    (h : asObj v = .ok kvs) : v = .obj kvs := by
  rcases v with _ | _ | _ | _ | _ | kvs' <;> simp only [asObj] at h
  · exact absurd h (by simp)
  · exact absurd h (by simp)
  · exact absurd h (by simp)
  · exact absurd h (by simp)
  · exact absurd h (by simp)
  · rw [show kvs' = kvs from by injection h]

/-- Exhausted fuel: the step-limit exit. -/
theorem loop_zero_eq (reg : Registry) (env : Env) (i : Nat) (st : LoopSt) :
    loop reg env i 0 st =
      .ok ⟨st.prev ++ [{ st.cur with final_answer := some maxStepsMsg }],
           maxStepsMsg, st.seen, st.emitted, st.calls⟩ := rfl

/-- A decision carrying `final_answer`: the normal terminal exit. -/
theorem loop_final_eq (reg : Registry) (env : Env) (i fuel : Nat) (st : LoopSt)
    (h : hasKey st.kvs faKey = true) :
    loop reg env i (fuel + 1) st =
      .ok ⟨st.prev ++ [{ st.cur with
             final_answer := some (pyStrip (pyStr (pyGetD st.kvs faKey (.str [])))) }],
           pyStrip (pyStr (pyGetD st.kvs faKey (.str []))),
           st.seen, st.emitted, st.calls⟩ := by
  simp only [loop, h, if_true]

/-- An action round that passes validation and the loop guard: the loop
records the pair, invokes the tool, scores, reflects, opens the next step and
recurses. -/
theorem loop_round_eq (reg : Registry) (env : Env) (i fuel : Nat) (st : LoopSt)
    {t x : List Char} {impl : ToolImpl} {sc : Option PyNum × Option JVal}
    {kvs' : List (List Char × JVal)}
    (ha : kvsAction st.kvs = some (t, x))
    (himpl : reg t = some impl) (ht : t ≠ [])
    (hfresh : (t, x) ∉ st.seen)
    (hsc : scoreObservation (env.scoreRaw i) = .ok sc)
    (hrefl : asObj (parse_json_safe (env.reflectRaw i)) = .ok kvs') :
    loop reg env i (fuel + 1) st =
      loop reg env (i + 1) fuel
        { prev := st.prev ++
            [{ st.cur with
               tool := some t, tool_input := some x,
               observation := some (obsOf impl x),
               confidence := sc.1, confidence_reason := sc.2 }],
          cur := { idx := i + 1, thought := pyGetD kvs' thoughtKey noThoughtD },
          kvs := kvs',
          seen := st.seen ++ [(t, x)],
          emitted := st.emitted ++
            [{ st.cur with
               tool := some t, tool_input := some x,
               observation := some (obsOf impl x),
               confidence := sc.1, confidence_reason := sc.2 },
             { idx := i + 1, thought := pyGetD kvs' thoughtKey noThoughtD }],
          calls := st.calls ++ [(t, x)] } := by
  obtain ⟨hfa, ak, hac, ht', hx'⟩ := kvsAction_inv ha
  have hreflv := asObj_inv hrefl
  simp only [loop, hfa, Bool.false_eq_true, if_false, hac, hreflv, asObj, ← ht', ← hx',
             himpl, if_neg ht, if_neg hfresh, hsc]

/-- A repeated `(tool, input)` pair: the guard exit. -/
theorem loop_repeated_eq (reg : Registry) (env : Env) (i fuel : Nat) (st : LoopSt)
    {t x : List Char} {impl : ToolImpl}
    (ha : kvsAction st.kvs = some (t, x))
    (himpl : reg t = some impl) (ht : t ≠ [])
    (hseen : (t, x) ∈ st.seen) :
    loop reg env i (fuel + 1) st =
      .ok ⟨st.prev ++ [{ st.cur with
             observation := some (repeatedMsg t x),
             final_answer := some (repeatedMsg t x) }],
           repeatedMsg t x, st.seen, st.emitted, st.calls⟩ := by
  obtain ⟨hfa, ak, hac, ht', hx'⟩ := kvsAction_inv ha
  simp only [loop, hfa, Bool.false_eq_true, if_false, hac, asObj, ← ht', ← hx',
             himpl, if_neg ht, if_pos hseen]

/-- Any exit that appends one closing step to the accumulated list keeps the
indices gapless. -/
theorem exit_idx (fuel' : Nat) {j : Nat} {st : LoopSt} {c : Step} {m : List Char}
    {sn : List (List Char × List Char)} {em : List Step}
    {cl : List (List Char × List Char)} {r : RunResult}
    (hc : st.cur.idx = j + 1) (hp : st.prev.map Step.idx = List.range' 1 j)
    (h : (Except.ok (⟨st.prev ++ [c], m, sn, em, cl⟩ : RunResult) : Except PyExc RunResult)
          = .ok r)
    (hcidx : c.idx = st.cur.idx) :
    r.steps.map Step.idx = List.range' 1 r.steps.length ∧
    j + 1 ≤ r.steps.length ∧ r.steps.length ≤ j + 1 + fuel' := by
  injection h with h
  subst h
  have hlen : st.prev.length = j := by simpa using congrArg List.length hp
  refine ⟨?_, ?_, ?_⟩
  · simp [hp, hcidx, hc, hlen, List.range'_concat, Nat.add_comm]
  · simp [hlen]
  · simp only [List.length_append, List.length_cons, List.length_nil, hlen]
    omega

/-- Step indices accumulate gaplessly: if the finished steps carry indices
`1..j` and the open step carries `j + 1`, every normal completion of the loop
returns steps indexed `1..n` with `j + 1 ≤ n ≤ j + 1 + fuel`. -/
theorem loop_idx_inv (reg : Registry) (env : Env) :
    ∀ fuel j st r, st.cur.idx = j + 1 →
      st.prev.map Step.idx = List.range' 1 j →
      loop reg env (j + 1) fuel st = .ok r →
      r.steps.map Step.idx = List.range' 1 r.steps.length ∧
      j + 1 ≤ r.steps.length ∧ r.steps.length ≤ j + 1 + fuel := by
  intro fuel
  induction fuel with
  | zero =>
    intro j st r hc hp h
    rw [loop_zero_eq] at h
    exact exit_idx 0 hc hp h rfl
  | succ fuel ih =>
    intro j st r hc hp h
    simp only [loop] at h
    split at h
    · exact exit_idx (fuel + 1) hc hp h rfl
    · split at h
      · cases h
      · split at h
        · exact exit_idx (fuel + 1) hc hp h rfl
        · split at h
          · exact exit_idx (fuel + 1) hc hp h rfl
          · split at h
            · exact exit_idx (fuel + 1) hc hp h rfl
            · split at h
              · cases h
              · split at h
                · cases h
                · -- recursive call at j + 2
                  have hlen : st.prev.length = j := by
                    simpa using congrArg List.length hp
                  have hsnoc : ∀ (c : Step), c.idx = st.cur.idx →
                      (st.prev ++ [c]).map Step.idx = List.range' 1 (j + 1) := by
                    intro c hcc
                    simp [hp, hcc, hc, hlen, List.range'_concat, Nat.add_comm]
                  obtain ⟨h1, h2, h3⟩ := ih (j + 1) _ r rfl (by exact hsnoc _ rfl) h
                  exact ⟨h1, by omega, by omega⟩

/-- A normally-returning run comes from a dict-parsing initial decision and
a completed loop started at Step 1. -/
theorem reason_ok_inv {reg : Registry} {env : Env} {r : RunResult}
    (h : reason reg env = .ok r) :
    ∃ kvs0, parse_json_safe env.initRaw = .obj kvs0 ∧
      loop reg env 1 MAX_STEPS
        ⟨[], { idx := 1, thought := pyGetD kvs0 thoughtKey noThoughtD }, kvs0, [],
         [{ idx := 1, thought := pyGetD kvs0 thoughtKey noThoughtD }], []⟩ = .ok r := by
  rw [reason] at h
  rcases ha : asObj (parse_json_safe env.initRaw) with e | kvs0 <;> rw [ha] at h
  · cases h
  · exact ⟨kvs0, asObj_inv ha, h⟩

/-- When every remaining decision is an action on a registered tool, the
pairs never repeat, every confidence reply parses to a dict and the decision
after the last round parses to a dict, the loop runs its rounds to exhaustion
and exits with the step-limit message, adding one step per round plus the
final step. -/
theorem loop_allActions (reg : Registry) (env : Env) (p : Nat → List Char × List Char)
    (hact : ∀ k, k < MAX_STEPS → decisionAction (roundRaw env k) = some (p k))
    (hreg : ∀ k, k < MAX_STEPS → (p k).1 ≠ [] ∧ (reg (p k).1).isSome = true)
    (hdist : ∀ k, k < MAX_STEPS → ∀ j, j < k → p j ≠ p k)
    (hsc : ∀ i, 1 ≤ i → i ≤ MAX_STEPS → isOkE (scoreObservation (env.scoreRaw i)) = true)
    (hlast : decisionIsDict (roundRaw env MAX_STEPS) = true) :
    ∀ fuel j st, j + fuel = MAX_STEPS →
      parse_json_safe (roundRaw env j) = .obj st.kvs →
      st.seen = (List.range j).map p →
      ∃ r, loop reg env (j + 1) fuel st = .ok r ∧ r.final = maxStepsMsg ∧
        r.steps.length = st.prev.length + fuel + 1 := by
  intro fuel
  induction fuel with
  | zero =>
    intro j st hj hkvs hseen
    exact ⟨_, loop_zero_eq .., rfl, by simp⟩
  | succ fuel ih =>
    intro j st hj hkvs hseen
    have hjlt : j < MAX_STEPS := by omega
    obtain ⟨kvsa, hpa, hka⟩ := decisionAction_inv (hact j hjlt)
    have hkvs_eq : kvsa = st.kvs := by
      rw [hkvs] at hpa
      injection hpa with h'
      exact h'.symm
    rw [hkvs_eq] at hka
    obtain ⟨ht, hr⟩ := hreg j hjlt
    obtain ⟨impl, himpl⟩ : ∃ impl, reg (p j).1 = some impl := by
      cases hri : reg (p j).1
      · rw [hri] at hr; simp [Option.isSome] at hr
      · exact ⟨_, rfl⟩
    have hfresh : p j ∉ st.seen := by
      rw [hseen]
      intro hmem
      obtain ⟨j', hj', hpj⟩ := List.mem_map.mp hmem
      exact hdist j hjlt j' (List.mem_range.mp hj') hpj
    obtain ⟨sc, hsc'⟩ : ∃ sc, scoreObservation (env.scoreRaw (j + 1)) = .ok sc := by
      have hok := hsc (j + 1) (by omega) (by omega)
      cases hx : scoreObservation (env.scoreRaw (j + 1))
      · rw [hx] at hok; simp [isOkE] at hok
      · exact ⟨_, rfl⟩
    obtain ⟨kvs', hkvs'⟩ : ∃ kvs', parse_json_safe (roundRaw env (j + 1)) = .obj kvs' := by
      by_cases hlt : j + 1 < MAX_STEPS
      · obtain ⟨kvs', h', _⟩ := decisionAction_inv (hact (j + 1) hlt)
        exact ⟨kvs', h'⟩
      · have hje : j + 1 = MAX_STEPS := by omega
        rw [hje]
        exact decisionIsDict_inv hlast
    have hrefl : asObj (parse_json_safe (env.reflectRaw (j + 1))) = .ok kvs' := by
      have hrr : env.reflectRaw (j + 1) = roundRaw env (j + 1) := rfl
      rw [hrr, hkvs']
      rfl
    have hfresh' : ((p j).1, (p j).2) ∉ st.seen := hfresh
    have heq := loop_round_eq reg env (j + 1) fuel st hka himpl ht hfresh' hsc' hrefl
    have H := ih (j + 1)
      { prev := st.prev ++ [{ st.cur with
          tool := some (p j).1, tool_input := some (p j).2,
          observation := some (obsOf impl (p j).2),
          confidence := sc.1, confidence_reason := sc.2 }],
        cur := { idx := j + 1 + 1, thought := pyGetD kvs' thoughtKey noThoughtD },
        kvs := kvs',
        seen := st.seen ++ [((p j).1, (p j).2)],
        emitted := st.emitted ++ [{ st.cur with
          tool := some (p j).1, tool_input := some (p j).2,
          observation := some (obsOf impl (p j).2),
          confidence := sc.1, confidence_reason := sc.2 },
          { idx := j + 1 + 1, thought := pyGetD kvs' thoughtKey noThoughtD }],
        calls := st.calls ++ [((p j).1, (p j).2)] }
      (by omega) hkvs' (by rw [hseen, List.range_succ]; simp)
    obtain ⟨r, hr', hfin, hlen⟩ := H
    refine ⟨r, ?_, hfin, ?_⟩
    · rw [heq]
      exact hr'
    · simp only [List.length_append, List.length_cons, List.length_nil] at hlen
      omega

/-- Any exit appends the single step that carries the final answer. -/
theorem exit_final {st : LoopSt} {c : Step} {m : List Char}
    {sn : List (List Char × List Char)} {em : List Step}
    {cl : List (List Char × List Char)} {r : RunResult}
    (hprev : ∀ s ∈ st.prev, s.final_answer = none)
    (h : (Except.ok (⟨st.prev ++ [c], m, sn, em, cl⟩ : RunResult) : Except PyExc RunResult)
          = .ok r)
    (hcf : c.final_answer = some m) :
    (∀ s ∈ r.steps.dropLast, s.final_answer = none) ∧
    ∃ last, r.steps.getLast? = some last ∧ last.final_answer = some r.final := by
  injection h with h
  subst h
  constructor
  · simpa [List.dropLast_concat] using hprev
  · exact ⟨c, by simp [List.getLast?_concat], hcf⟩

theorem maxStepsMsg_ne_nil : maxStepsMsg ≠ [] := by decide

theorem unknownToolMsg_ne_nil (t : List Char) : unknownToolMsg t ≠ [] := by
  simp [unknownToolMsg]

theorem repeatedMsg_ne_nil (t x : List Char) : repeatedMsg t x ≠ [] := by
  simp [repeatedMsg]

/-- The final answer is recorded exactly once, on the last step, and equals
the returned answer; it can be empty only when some round's decision carried
a `final_answer` field that stringifies-and-strips to the empty string. -/
theorem loop_final_inv (reg : Registry) (env : Env) :
    ∀ fuel j st r,
      (∀ s ∈ st.prev, s.final_answer = none) →
      st.cur.final_answer = none →
      parse_json_safe (roundRaw env j) = .obj st.kvs →
      loop reg env (j + 1) fuel st = .ok r →
      (∀ s ∈ r.steps.dropLast, s.final_answer = none) ∧
      (∃ last, r.steps.getLast? = some last ∧ last.final_answer = some r.final) ∧
      (r.final = [] → ∃ k, decisionFinal (roundRaw env k) = some []) := by
  intro fuel
  induction fuel with
  | zero =>
    intro j st r hprev hcur hkvs h
    rw [loop_zero_eq] at h
    obtain ⟨hc1, hc2⟩ := exit_final hprev h rfl
    refine ⟨hc1, hc2, fun hemp => ?_⟩
    injection h with h2
    subst h2
    exact absurd hemp maxStepsMsg_ne_nil
  | succ fuel ih =>
    intro j st r hprev hcur hkvs h
    simp only [loop] at h
    split at h
    next hkey =>
      obtain ⟨hc1, hc2⟩ := exit_final hprev h rfl
      refine ⟨hc1, hc2, fun hemp => ?_⟩
      injection h with h2
      subst h2
      refine ⟨j, ?_⟩
      simp only [decisionFinal, hkvs, hkey, if_true]
      exact congrArg some hemp
    next =>
      split at h
      · cases h
      · split at h
        next =>
          obtain ⟨hc1, hc2⟩ := exit_final hprev h rfl
          refine ⟨hc1, hc2, fun hemp => ?_⟩
          injection h with h2
          subst h2
          exact absurd hemp (unknownToolMsg_ne_nil _)
        next =>
          split at h
          next =>
            obtain ⟨hc1, hc2⟩ := exit_final hprev h rfl
            refine ⟨hc1, hc2, fun hemp => ?_⟩
            injection h with h2
            subst h2
            exact absurd hemp (unknownToolMsg_ne_nil _)
          next =>
            split at h
            next =>
              obtain ⟨hc1, hc2⟩ := exit_final hprev h rfl
              refine ⟨hc1, hc2, fun hemp => ?_⟩
              injection h with h2
              subst h2
              exact absurd hemp (repeatedMsg_ne_nil _ _)
            next =>
              split at h
              · cases h
              · split at h
                · cases h
                next hrefl =>
                  refine ih (j + 1) _ r ?_ (by rfl) (by exact asObj_inv hrefl) h
                  intro s hs
                  rcases List.mem_append.mp hs with hs | hs
                  · exact hprev s hs
                  · rw [List.mem_singleton.mp hs]
                    exact hcur

theorem mem_of_mem_getLastQ {l : List Step} {x : Step} (hx : x ∈ l.getLast?) : x ∈ l := by
  obtain ⟨h, rfl⟩ := List.mem_getLast?_eq_getLast hx
  exact List.getLast_mem h

/-- Any exit leaves the emission record unchanged and appends one step whose
index was already emitted. -/
theorem exit_emit {st : LoopSt} {c : Step} {m : List Char}
    {sn : List (List Char × List Char)} {cl : List (List Char × List Char)} {r : RunResult}
    (hch : List.Chain' (fun a b => a.idx ≤ b.idx) st.emitted)
    (hcov : ∀ s ∈ st.prev, ∃ e ∈ st.emitted, e.idx = s.idx)
    (hcurcov : ∃ e ∈ st.emitted, e.idx = st.cur.idx)
    (h : (Except.ok (⟨st.prev ++ [c], m, sn, st.emitted, cl⟩ : RunResult)
          : Except PyExc RunResult) = .ok r)
    (hcidx : c.idx = st.cur.idx) :
    List.Chain' (fun a b => a.idx ≤ b.idx) r.emitted ∧
    ∀ s ∈ r.steps, ∃ e ∈ r.emitted, e.idx = s.idx := by
  injection h with h
  subst h
  refine ⟨hch, fun s hs => ?_⟩
  rcases List.mem_append.mp hs with hs | hs
  · exact hcov s hs
  · rw [List.mem_singleton.mp hs, hcidx]
    exact hcurcov

/-- The sink sees snapshots in non-decreasing index order, and every step of
the returned list was emitted (at least once) with its index. -/
theorem loop_emit_inv (reg : Registry) (env : Env) :
    ∀ fuel j st r,
      st.cur.idx = j + 1 →
      List.Chain' (fun a b => a.idx ≤ b.idx) st.emitted →
      (∀ e ∈ st.emitted, e.idx ≤ j + 1) →
      (∀ s ∈ st.prev, ∃ e ∈ st.emitted, e.idx = s.idx) →
      (∃ e ∈ st.emitted, e.idx = st.cur.idx) →
      loop reg env (j + 1) fuel st = .ok r →
      List.Chain' (fun a b => a.idx ≤ b.idx) r.emitted ∧
      ∀ s ∈ r.steps, ∃ e ∈ r.emitted, e.idx = s.idx := by
  intro fuel
  induction fuel with
  | zero =>
    intro j st r hc hch hbound hcov hcurcov h
    rw [loop_zero_eq] at h
    exact exit_emit hch hcov hcurcov h rfl
  | succ fuel ih =>
    intro j st r hc hch hbound hcov hcurcov h
    simp only [loop] at h
    split at h
    · exact exit_emit hch hcov hcurcov h rfl
    · split at h
      · cases h
      · split at h
        · exact exit_emit hch hcov hcurcov h rfl
        · split at h
          · exact exit_emit hch hcov hcurcov h rfl
          · split at h
            · exact exit_emit hch hcov hcurcov h rfl
            · split at h
              · cases h
              · split at h
                · cases h
                · -- recursive call: two snapshots are appended
                  refine ih (j + 1) _ r rfl ?_ ?_ ?_ ?_ h
                  · rw [List.chain'_append]
                    refine ⟨hch, ?_, ?_⟩
                    · refine List.chain'_cons.mpr ⟨?_, List.chain'_singleton _⟩
                      simp [hc]
                    · intro a ha b hb
                      simp only [List.head?_cons, Option.mem_def, Option.some.injEq] at hb
                      subst hb
                      have := hbound a (mem_of_mem_getLastQ ha)
                      simpa [hc] using this
                  · intro e he
                    rcases List.mem_append.mp he with he | he
                    · exact Nat.le_succ_of_le (hbound e he)
                    · rcases List.mem_cons.mp he with he | he
                      · subst he
                        simp [hc]
                      · rw [List.mem_singleton.mp he]
                  · intro s hs
                    rcases List.mem_append.mp hs with hs | hs
                    · obtain ⟨e, he, heq⟩ := hcov s hs
                      exact ⟨e, List.mem_append_left _ he, heq⟩
                    · rw [List.mem_singleton.mp hs]
                      refine ⟨_, List.mem_append_right _ (List.mem_cons_self _ _), rfl⟩
                  · refine ⟨_, List.mem_append_right _
                      (List.mem_cons_of_mem _ (List.mem_singleton.mpr rfl)), rfl⟩

/-- An observation string is never empty: tool output falls back to the
`"(no data)"` placeholder and faults map to the tool-error text. -/
theorem obsOf_ne_nil (impl : ToolImpl) (x : List Char) : obsOf impl x ≠ [] := by
  rw [obsOf]
  cases impl.call x with
  | ok o =>
    by_cases ho : o = [] <;> simp [ho, noData]
  | error e => simp [toolErrMsg]

/-- Any exit appends a step whose `tool` field it leaves untouched. -/
theorem exit_obs {st : LoopSt} {c : Step} {m : List Char}
    {sn : List (List Char × List Char)} {em : List Step}
    {cl : List (List Char × List Char)} {r : RunResult}
    (hprev : ∀ s ∈ st.prev, s.tool.isSome = true → s.observation ≠ some [])
    (hcur : st.cur.tool = none)
    (h : (Except.ok (⟨st.prev ++ [c], m, sn, em, cl⟩ : RunResult)
          : Except PyExc RunResult) = .ok r)
    (hctool : c.tool = st.cur.tool) :
    ∀ s ∈ r.steps, s.tool.isSome = true → s.observation ≠ some [] := by
  injection h with h
  subst h
  intro s hs htool
  rcases List.mem_append.mp hs with hs | hs
  · exact hprev s hs htool
  · rw [List.mem_singleton.mp hs] at htool ⊢
    rw [hctool, hcur] at htool
    cases htool

/-- A step that resolved through tool execution never records the empty
observation. -/
theorem loop_obs_inv (reg : Registry) (env : Env) :
    ∀ fuel i st r,
      (∀ s ∈ st.prev, s.tool.isSome = true → s.observation ≠ some []) →
      st.cur.tool = none →
      loop reg env i fuel st = .ok r →
      ∀ s ∈ r.steps, s.tool.isSome = true → s.observation ≠ some [] := by
  intro fuel
  induction fuel with
  | zero =>
    intro i st r hprev hcur h
    rw [loop_zero_eq] at h
    exact exit_obs hprev hcur h rfl
  | succ fuel ih =>
    intro i st r hprev hcur h
    simp only [loop] at h
    split at h
    · exact exit_obs hprev hcur h rfl
    · split at h
      · cases h
      · split at h
        · exact exit_obs hprev hcur h rfl
        · split at h
          · exact exit_obs hprev hcur h rfl
          · split at h
            · exact exit_obs hprev hcur h rfl
            · split at h
              · cases h
              · split at h
                · cases h
                · refine ih (i + 1) _ r ?_ (by rfl) h
                  intro s hs htool
                  rcases List.mem_append.mp hs with hs | hs
                  · exact hprev s hs htool
                  · rw [List.mem_singleton.mp hs]
                    intro hobs
                    exact obsOf_ne_nil _ _ (Option.some.inj hobs)

theorem startsWithL_append (p q : List Char) : startsWithL p (p ++ q) = true := by
  induction p with
  | nil => rfl
  | cons c r ih => simp [startsWithL, ih]

/-- **C2** (amended): at most one Step carries a final-answer value — the
last one — and it equals the run's returned final answer; the recorded answer
can be empty only when some round's decision carried a `final_answer` field
whose value stringifies-and-strips to the empty string (a run that raises
returns no steps and no answer). -/
theorem c2_final_answer_unique_last :
    ∀ (reg : Registry) (env : Env),
      (∀ s ∈ (resSteps (reason reg env)).dropLast, s.final_answer = none) ∧
      (isOkE (reason reg env) = true →
        ∃ last, (resSteps (reason reg env)).getLast? = some last ∧
          last.final_answer = some (resFinal (reason reg env))) ∧
      (isOkE (reason reg env) = true → resFinal (reason reg env) = [] →
        ∃ k, decisionFinal (roundRaw env k) = some []) := by
  intro reg env
  cases hres : reason reg env with
  | error e =>
    refine ⟨by simp [resSteps], fun hok => ?_, fun hok => ?_⟩ <;> simp [isOkE] at hok
  | ok r =>
    obtain ⟨kvs0, hp0, hloop⟩ := reason_ok_inv hres
    obtain ⟨h1, h2, h3⟩ := loop_final_inv reg env MAX_STEPS 0
      ⟨[], { idx := 1, thought := pyGetD kvs0 thoughtKey noThoughtD }, kvs0, [],
       [{ idx := 1, thought := pyGetD kvs0 thoughtKey noThoughtD }], []⟩ r
      (by simp) rfl hp0 hloop
    exact ⟨h1, fun _ => h2, fun _ => h3⟩

theorem hC2 : (resSteps (reason reg0 envOneAction)).dropLast ≠ [] := by
  intro h
  have h2 : (resSteps (reason reg0 envOneAction)).dropLast.length = 1 := by decide
  rw [h] at h2
  cases h2

theorem hC4 : resSteps (reason reg0 envOneAction) ≠ [] := by
  intro h
  have h2 : (resSteps (reason reg0 envOneAction)).length = 2 := by decide
  rw [h] at h2
  cases h2

/-- **C2** witness: the empty-final run returns normally with an empty
answer, and the emptiness is traceable to the decision's empty
`final_answer` field. -/
theorem c2_witness :
    isOkE (reason reg0 envEmptyFinal) = true ∧
    (∃ last, (resSteps (reason reg0 envOneAction)).getLast? = some last ∧
      last.final_answer = some (resFinal (reason reg0 envOneAction))) ∧
    ((resSteps (reason reg0 envOneAction)).dropLast.head hC2).final_answer = none ∧
    ∃ k, decisionFinal (roundRaw envEmptyFinal k) = some [] :=
  ⟨by decide,
   (c2_final_answer_unique_last reg0 envOneAction).2.1 (by decide),
   (c2_final_answer_unique_last reg0 envOneAction).1 _ (List.head_mem hC2),
   (c2_final_answer_unique_last reg0 envEmptyFinal).2.2 (by decide) (by decide)⟩

/-- **C4** (amended): the step sink receives snapshots in *non-decreasing*
index order — each Step is emitted when it is opened and once more after its
observation is scored, so consecutive snapshots may repeat an index — every
returned Step was emitted with its index, and `run_stream` yields exactly the
Steps that the shared reasoning core (also behind `run`) computed. -/
theorem c4_stream_emission_order :
    ∀ (reg : Registry) (env : Env),
      List.Chain' (fun a b => a.idx ≤ b.idx) (resEmitted (reason reg env)) ∧
      (∀ s ∈ resSteps (reason reg env),
        ∃ e ∈ resEmitted (reason reg env), e.idx = s.idx) ∧
      run_stream reg env = (reason reg env).map RunResult.steps := by
  intro reg env
  cases hres : reason reg env with
  | error e => exact ⟨by simp [resEmitted], by simp [resSteps], by rw [run_stream, hres]⟩
  | ok r =>
    obtain ⟨kvs0, hp0, hloop⟩ := reason_ok_inv hres
    obtain ⟨h1, h2⟩ := loop_emit_inv reg env MAX_STEPS 0
      ⟨[], { idx := 1, thought := pyGetD kvs0 thoughtKey noThoughtD }, kvs0, [],
       [{ idx := 1, thought := pyGetD kvs0 thoughtKey noThoughtD }], []⟩ r
      rfl (List.chain'_singleton _) (by simp) (by simp)
      ⟨_, List.mem_singleton.mpr rfl, rfl⟩ hloop
    exact ⟨h1, h2, by rw [run_stream, hres]⟩

/-- **C4** witness: a concrete two-step streamed run is emitted in
non-decreasing order and covers both steps. -/
theorem c4_witness :
    List.Chain' (fun (a b : Step) => a.idx ≤ b.idx) (resEmitted (reason reg0 envOneAction)) ∧
    (∃ e ∈ resEmitted (reason reg0 envOneAction), e.idx = 1) ∧
    run_stream reg0 envOneAction = (reason reg0 envOneAction).map RunResult.steps := by
  refine ⟨(c4_stream_emission_order reg0 envOneAction).1, ?_,
          (c4_stream_emission_order reg0 envOneAction).2.2⟩
  obtain ⟨e, he, heq⟩ := (c4_stream_emission_order reg0 envOneAction).2.1
    ((resSteps (reason reg0 envOneAction)).head hC4) (List.head_mem hC4)
  refine ⟨e, he, ?_⟩
  rw [heq]
  decide

/-- **C8** (amended): a tool fault never escapes the loop: the observation
recorded for the raising invocation is the tool-error text — whose marker is
`[Tool Error] ` (capital E, unlike the claimed `[Tool error]`) — and the loop
proceeds to confidence scoring and reflection, continuing with the next
decision and the next opened Step. -/
theorem c8_tool_fault_recovered (reg : Registry) (env : Env) (i fuel : Nat)
    (st : LoopSt) {t x : List Char} {impl : ToolImpl} {exc : PyExc}
    {sc : Option PyNum × Option JVal} {kvs' : List (List Char × JVal)}
    (ha : kvsAction st.kvs = some (t, x))
    (himpl : reg t = some impl) (ht : t ≠ [])
    (hfresh : (t, x) ∉ st.seen)
    (hcall : impl.call x = .error exc)
    (hsc : scoreObservation (env.scoreRaw i) = .ok sc)
    (hrefl : asObj (parse_json_safe (env.reflectRaw i)) = .ok kvs') :
    obsOf impl x = toolErrMsg exc ∧
    startsWithL "[Tool Error] ".data (toolErrMsg exc) = true ∧
    loop reg env i (fuel + 1) st =
      loop reg env (i + 1) fuel
        { prev := st.prev ++
            [{ st.cur with
               tool := some t, tool_input := some x,
               observation := some (toolErrMsg exc),
               confidence := sc.1, confidence_reason := sc.2 }],
          cur := { idx := i + 1, thought := pyGetD kvs' thoughtKey noThoughtD },
          kvs := kvs',
          seen := st.seen ++ [(t, x)],
          emitted := st.emitted ++
            [{ st.cur with
               tool := some t, tool_input := some x,
               observation := some (toolErrMsg exc),
               confidence := sc.1, confidence_reason := sc.2 },
             { idx := i + 1, thought := pyGetD kvs' thoughtKey noThoughtD }],
          calls := st.calls ++ [(t, x)] } := by
  have hobs : obsOf impl x = toolErrMsg exc := by rw [obsOf, hcall]
  refine ⟨hobs, ?_, ?_⟩
  · rw [toolErrMsg]
    have h2 : "[Tool Error] ".data ++ exc.typeName ++ ": ".data ++ exc.msg ++ ['\n'] ++ exc.tb
        = "[Tool Error] ".data ++ (exc.typeName ++ ": ".data ++ exc.msg ++ ['\n'] ++ exc.tb) := by
      simp
    rw [h2]
    exact startsWithL_append _ _
  · have heq := loop_round_eq reg env i fuel st ha himpl ht hfresh hsc hrefl
    rw [heq, hobs]

/-- **C8** witness: the amended statement at a concrete raising tool. -/
theorem c8_witness :
    obsOf boomImpl ("x".data) = toolErrMsg ⟨"ValueError".data, "bad".data, "tb".data⟩ ∧
    startsWithL "[Tool Error] ".data
      (toolErrMsg ⟨"ValueError".data, "bad".data, "tb".data⟩) = true := by
  have H := @c8_tool_fault_recovered regBoom envBoomTwice 1 5 stBoom
    ("boom".data) ("x".data) boomImpl ⟨"ValueError".data, "bad".data, "tb".data⟩
    (some (.float (mkRat 9 10)), some (.str "ok".data))
    [(thoughtKey, .str "need info".data),
     (actionKey, .obj [(toolKey, .str "boom".data), (inputKey, .str "x".data)])]
    (by decide) rfl (by decide) (by decide) rfl rfl rfl
  exact ⟨H.1, H.2.1⟩

/-- **C9** — confirmed: the `(tool, input)` pair is recorded in the Loop
Guard set *before* the tool is invoked (line 159 precedes the `try`), so a
pair counts as seen even when its invocation raises: when the next decision
re-issues the identical pair, the run terminates at the following Step with
the repeated-action answer, having invoked the tool exactly once. -/
theorem c9_guard_records_before_call (reg : Registry) (env : Env) (i fuel : Nat)
    (st : LoopSt) {t x : List Char} {impl : ToolImpl} {exc : PyExc}
    {sc : Option PyNum × Option JVal} {kvs' : List (List Char × JVal)}
    (ha : kvsAction st.kvs = some (t, x))
    (himpl : reg t = some impl) (ht : t ≠ [])
    (hfresh : (t, x) ∉ st.seen)
    (hcall : impl.call x = .error exc)
    (hsc : scoreObservation (env.scoreRaw i) = .ok sc)
    (hrefl : parse_json_safe (env.reflectRaw i) = .obj kvs')
    (ha2 : kvsAction kvs' = some (t, x)) :
    ∃ r, loop reg env i (fuel + 2) st = .ok r ∧
      r.final = repeatedMsg t x ∧
      r.calls = st.calls ++ [(t, x)] ∧
      r.seen = st.seen ++ [(t, x)] ∧
      r.steps.length = st.prev.length + 2 := by
  have hreflA : asObj (parse_json_safe (env.reflectRaw i)) = .ok kvs' := by
    rw [hrefl]
    rfl
  have heq := loop_round_eq reg env i (fuel + 1) st ha himpl ht hfresh hsc hreflA
  rw [heq]
  have hseen2 : (t, x) ∈ st.seen ++ [(t, x)] :=
    List.mem_append_right _ (List.mem_singleton.mpr rfl)
  rw [loop_repeated_eq reg env (i + 1) fuel _ ha2 himpl ht hseen2]
  refine ⟨_, rfl, rfl, rfl, rfl, ?_⟩
  simp

/-- **C9** witness: a raising `boom("x")` followed by the identical action
ends at Step 2 with the repeated-action answer and a single tool
invocation. -/
theorem c9_witness :
    resFinal (loop regBoom envBoomTwice 1 6 stBoom) = repeatedMsg "boom".data "x".data ∧
    resCalls (loop regBoom envBoomTwice 1 6 stBoom) = [("boom".data, "x".data)] ∧
    (resSteps (loop regBoom envBoomTwice 1 6 stBoom)).length = 2 := by
  obtain ⟨r, hr, hfin, hcalls, hseen, hlen⟩ :=
    @c9_guard_records_before_call regBoom envBoomTwice 1 4 stBoom
      ("boom".data) ("x".data) boomImpl ⟨"ValueError".data, "bad".data, "tb".data⟩
      (some (.float (mkRat 9 10)), some (.str "ok".data))
      [(thoughtKey, .str "need info".data),
       (actionKey, .obj [(toolKey, .str "boom".data), (inputKey, .str "x".data)])]
      (by decide) rfl (by decide) (by decide) rfl rfl rfl (by decide)
  rw [show (6 : Nat) = 4 + 2 from rfl, hr]
  exact ⟨hfin, by simpa [stBoom] using hcalls, by simpa [stBoom] using hlen⟩

/-- **C10** — confirmed: when a registered tool's call returns the empty
string, the recorded observation is the literal `"(no data)"` placeholder
(`... or "(no data)"` on line 163), and consequently no Step resolved through
tool execution ever carries an empty observation. -/
theorem c10_no_empty_observation :
    (∀ (impl : ToolImpl) (x : List Char), impl.call x = .ok [] →
      obsOf impl x = noData) ∧
    noData = "(no data)".data ∧
    (∀ (reg : Registry) (env : Env) (i fuel : Nat) (st : LoopSt)
      (t x : List Char) (impl : ToolImpl) (sc : Option PyNum × Option JVal)
      (kvs' : List (List Char × JVal)),
      kvsAction st.kvs = some (t, x) → reg t = some impl → t ≠ [] →
      (t, x) ∉ st.seen → impl.call x = .ok [] →
      scoreObservation (env.scoreRaw i) = .ok sc →
      asObj (parse_json_safe (env.reflectRaw i)) = .ok kvs' →
      ∃ st', loop reg env i (fuel + 1) st = loop reg env (i + 1) fuel st' ∧
        st'.prev.getLast? = some { st.cur with
          tool := some t, tool_input := some x, observation := some noData,
          confidence := sc.1, confidence_reason := sc.2 }) ∧
    (∀ (reg : Registry) (env : Env), ∀ s ∈ resSteps (reason reg env),
      s.tool.isSome = true → s.observation ≠ some []) := by
  refine ⟨fun impl x hcall => by rw [obsOf, hcall]; rfl, rfl, ?_, ?_⟩
  · intro reg env i fuel st t x impl sc kvs' ha himpl ht hfresh hcall hsc hrefl
    have hobs : obsOf impl x = noData := by rw [obsOf, hcall]; rfl
    have heq := loop_round_eq reg env i fuel st ha himpl ht hfresh hsc hrefl
    rw [hobs] at heq
    exact ⟨_, heq, List.getLast?_concat _⟩
  intro reg env s hs htool
  cases hres : reason reg env with
  | error e =>
    rw [hres] at hs
    cases hs
  | ok r =>
    obtain ⟨kvs0, hp0, hloop⟩ := reason_ok_inv hres
    rw [hres] at hs
    exact loop_obs_inv reg env MAX_STEPS 1
      ⟨[], { idx := 1, thought := pyGetD kvs0 thoughtKey noThoughtD }, kvs0, [],
       [{ idx := 1, thought := pyGetD kvs0 thoughtKey noThoughtD }], []⟩ r
      (by simp) rfl hloop s hs htool

/-- **C10** witness: the empty-output placeholder at a concrete tool, and
the run-level invariant on a concrete run through that tool. -/
theorem c10_witness :
    obsOf blankImpl ("q".data) = noData ∧
    blankImpl.call ("q".data) = .ok [] ∧
    (∃ st', loop regBlank envOneAction 1 6 stBlank = loop regBlank envOneAction 2 5 st' ∧
      st'.prev.getLast? = some { stBlank.cur with
        tool := some "blank".data, tool_input := some "q".data,
        observation := some noData,
        confidence := some (.float (mkRat 9 10)), confidence_reason := some (.str "ok".data) }) ∧
    ((resSteps (reason reg0 envOneAction)).head hC4).observation ≠ some [] :=
  ⟨c10_no_empty_observation.1 blankImpl ("q".data) rfl, rfl,
   @c10_no_empty_observation.2.2.1 regBlank envOneAction 1 5 stBlank
     ("blank".data) ("q".data) blankImpl
     (some (.float (mkRat 9 10)), some (.str "ok".data))
     [(thoughtKey, .str "done".data), (faKey, .str "done".data)]
     (by decide) rfl (by decide) (by decide) rfl rfl rfl,
   c10_no_empty_observation.2.2.2 reg0 envOneAction _ (List.head_mem hC4) (by decide)⟩

/-- The clamp always lands in `[0, 1]` and always yields a float. -/
theorem clampPy_mem_unit (v : PyNum) : ∃ q : ℚ, clampPy v = .float q ∧ 0 ≤ q ∧ q ≤ 1 := by
  have h01 : (0 : ℚ) ≤ 1 := by norm_num
  cases v with
  | float q0 =>
    exact ⟨max 0 (min 1 q0), rfl, le_max_left 0 _,
      max_le h01 (min_le_left 1 q0)⟩
  | int n =>
    exact ⟨max 0 (min 1 (n : ℚ)), rfl, le_max_left 0 _,
      max_le h01 (min_le_left 1 _)⟩
  | nan => exact ⟨1, rfl, h01, le_refl 1⟩
  | inf => exact ⟨1, rfl, h01, le_refl 1⟩
  | ninf => exact ⟨0, rfl, le_refl 0, h01⟩

/-! ## Claims -/

/-- **C3** — counterexample to the claim as stated.  The claim: "for every
input string, `parse` returns a Decision."  But `json.loads("123")` succeeds
with the integer `123`, which `_parse_json_safe` returns unchanged (its
`cast` is a static annotation, not a runtime check), and an integer is not a
Decision (not even a dict): the first `.get` a caller performs on it raises
`AttributeError`. -/
theorem c3_counterexample :
    parse_json_safe ("123".data) = .num (.int 123) ∧ decisionIsDict ("123".data) = false :=
  ⟨rfl, by decide⟩

/-- **C3** (amended): the Decision Parser is a total function (total by
construction — every `json.loads` error is caught); when the text parses as
JSON the parsed value is returned (a Decision-shaped dict whenever that value
is an object, but a non-object JSON document is returned as-is); and when no
parsing strategy succeeds the result is a `Final` decision whose answer is
the raw text stripped, truncated to at most 400 characters and prefixed with
the parse-failure marker `[Invalid JSON] `. -/
theorem c3_parser_totality_and_fallback :
    (∀ t v, jsonLoads t = some v → parse_json_safe t = v) ∧
    (∀ t, jsonLoads t = none →
      (firstBraceBlock t = none ∨
        ∃ b, firstBraceBlock t = some b ∧ jsonLoads (replaceChar qChar '"' b) = none) →
      parse_json_safe t = fallbackDecision t) ∧
    (∀ t, ∃ kvs, fallbackDecision t = .obj kvs ∧
      pyGet kvs faKey = some (.str (invalidMark ++ (pyStrip t).take 400)) ∧
      startsWithL invalidMark (invalidMark ++ (pyStrip t).take 400) = true ∧
      ((pyStrip t).take 400).length ≤ 400) := by
  refine ⟨fun t v h => parse_json_safe_direct h,
          fun t h1 h2 => parse_json_safe_fallback h1 h2,
          fun t => ⟨_, rfl, ?_, ?_, List.length_take_le 400 _⟩⟩
  · simp [pyGet, fallbackDecision]
  · induction invalidMark with
    | nil => rfl
    | cons c r ih => simpa [startsWithL] using ih

/-- **C3** witness: strategy 1 on a concrete JSON document and the fallback
branch on a concrete unparsable input. -/
theorem c3_witness :
    parse_json_safe (braced []) = .obj [] ∧
    jsonLoads ("not json".data) = none ∧
    parse_json_safe ("not json".data) = fallbackDecision ("not json".data) :=
  ⟨c3_parser_totality_and_fallback.1 (braced []) (.obj []) rfl,
   rfl, c3_parser_totality_and_fallback.2.1 ("not json".data) rfl (Or.inl rfl)⟩

/-- **C5** — counterexample to the claim as stated.  The claim: an
unparsable scorer reply yields a *null* relevance.  But the fallback decision
fabricated for unparsable text has no `relevance` key, so
`parsed.get("relevance", 0.0)` yields the default `0.0`, which clamps to
`0.0` — not `None`; the reply below parses under no strategy. -/
theorem c5_counterexample :
    scoreRelOf (scoreObservation ("garbage reply".data)) = some (some (.float 0)) ∧
    (some (PyNum.float 0) : Option PyNum) ≠ none := by
  constructor
  · decide
  · intro h; cases h

/-- **C5** (amended): every relevance the scorer returns, when present, lies
in `[0, 1]`; the out-of-range numeric replies `-5` and `1.7` clamp to `0.0`
and `1.0`; and an unparsable model reply yields relevance `0.0` (the missing
field defaults to `0.0` before clamping) and an *absent* reason — the scorer
does not fail the run on unparsable replies. -/
theorem c5_scorer_clamping :
    (∀ raw rel, scoreRelOf (scoreObservation raw) = some (some rel) →
      ∃ q : ℚ, rel = .float q ∧ 0 ≤ q ∧ q ≤ 1) ∧
    (scoreRelOf (scoreObservation (braced ("\"relevance\": -5".data))) = some (some (.float 0)) ∧
     scoreRelOf (scoreObservation (braced ("\"relevance\": 1.7".data))) = some (some (.float 1))) ∧
    (∀ raw, jsonLoads raw = none →
      (firstBraceBlock raw = none ∨
        ∃ b, firstBraceBlock raw = some b ∧ jsonLoads (replaceChar qChar '"' b) = none) →
      scoreObservation raw = .ok (some (.float 0), none)) := by
  refine ⟨?_, ⟨by decide, by decide⟩, ?_⟩
  · intro raw rel h
    rw [scoreObservation] at h
    rcases hp : parse_json_safe raw with _ | _ | _ | _ | _ | kvs <;> rw [hp] at h <;>
      simp only [scoreRelOf] at h
    · exact absurd h (by simp)
    · exact absurd h (by simp)
    · exact absurd h (by simp)
    · exact absurd h (by simp)
    · exact absurd h (by simp)
    · rcases hf : pyFloat (pyGetD kvs relevanceKey (.num (.float 0))) with _ | v <;>
        rw [hf] at h <;> simp only [scoreRelOf] at h
      · simp at h
      · have hrel : rel = clampPy v := by
          have := h
          simp at this
          exact this.symm
        obtain ⟨q, hq, h0, h1⟩ := clampPy_mem_unit v
        exact ⟨q, hrel ▸ hq, h0, h1⟩
  · intro raw h1 h2
    have hp : parse_json_safe raw = fallbackDecision raw := parse_json_safe_fallback h1 h2
    rw [scoreObservation, hp]
    simp [fallbackDecision, pyGetD, pyGet, pyFloat, clampPy,
          faKey, relevanceKey, reasonKey, thoughtKey]

/-- **C5** witness: the in-range law applied to a concrete scorer reply. -/
theorem c5_witness :
    scoreRelOf (scoreObservation scoreRawOk) = some (some (.float (mkRat 9 10))) ∧
    (∃ q : ℚ, (PyNum.float (mkRat 9 10)) = .float q ∧ 0 ≤ q ∧ q ≤ 1) ∧
    scoreObservation ("nope".data) = .ok (some (.float 0), none) :=
  ⟨by decide, c5_scorer_clamping.1 scoreRawOk (.float (mkRat 9 10)) (by decide),
   c5_scorer_clamping.2.2 ("nope".data) rfl (Or.inl rfl)⟩

/-- **C6** — counterexample to the claim as stated.  The bare text
`{"thought": "a", "final_answer": "don't"}` is valid JSON and parses to a
Final decision answering `don't`; wrapped in a sentence (no braces added),
the block strategy replaces *every* single quote by a double quote before
re-parsing, which corrupts the apostrophe and sends the parse to the
fallback — a different Decision. -/
theorem c6_counterexample :
    decisionFinal ("Note: ".data ++
        braced (jfield thoughtKey ['a'] ++ ", ".data ++
          jfield faKey ("don".data ++ [qChar] ++ "t".data)) ++ " end".data) ≠
      decisionFinal (braced (jfield thoughtKey ['a'] ++ ", ".data ++
          jfield faKey ("don".data ++ [qChar] ++ "t".data))) := by
  decide

/-- **C6** (amended): for every decision text that is a brace-delimited
valid JSON document *containing no single-quote character*, wrapped in a
sentence that adds no `{` before it and no `}` after it and that defeats the
direct-parse strategy, parsing the wrapped text returns the same Decision as
parsing the bare text (the block strategy extracts exactly the original
block, and quote normalisation is the identity on it). -/
theorem c6_parser_wrap_idempotence (pre mid post : List Char) (v : JVal)
    (hbare : jsonLoads (lbr :: (mid ++ [rbr])) = some v)
    (hq : qChar ∉ lbr :: (mid ++ [rbr]))
    (hpre : lbr ∉ pre) (hpost : rbr ∉ post)
    (hwrap : jsonLoads (pre ++ (lbr :: (mid ++ [rbr])) ++ post) = none) :
    parse_json_safe (pre ++ (lbr :: (mid ++ [rbr])) ++ post)
      = parse_json_safe (lbr :: (mid ++ [rbr])) ∧
    parse_json_safe (lbr :: (mid ++ [rbr])) = v := by
  have hblk := firstBraceBlock_wrap pre mid post hpre hpost
  have hrepl : replaceChar qChar '"' (lbr :: (mid ++ [rbr])) = lbr :: (mid ++ [rbr]) :=
    replaceChar_of_not_mem '"' hq
  have hbareEq : parse_json_safe (lbr :: (mid ++ [rbr])) = v := parse_json_safe_direct hbare
  refine ⟨?_, hbareEq⟩
  rw [parse_json_safe_block hwrap hblk (by rw [hrepl]; exact hbare), hbareEq]

/-- **C6** witness: wrapping a concrete quote-free Final decision in a
sentence leaves the parsed Decision unchanged. -/
theorem c6_witness :
    parse_json_safe ("Note: ".data ++
        (lbr :: (jfield faKey "ok".data ++ [rbr])) ++ " end".data)
      = parse_json_safe (lbr :: (jfield faKey "ok".data ++ [rbr])) ∧
    parse_json_safe (lbr :: (jfield faKey "ok".data ++ [rbr]))
      = .obj [(faKey, .str "ok".data)] :=
  c6_parser_wrap_idempotence ("Note: ".data) (jfield faKey "ok".data) (" end".data)
    (.obj [(faKey, .str "ok".data)]) rfl (by decide) (by decide) (by decide) rfl

/-- **C1** (amended): for every run that returns (of `run` or `run_stream`,
both of which return `_reason`'s step list; a run that raises returns
nothing), the Step sequence has indices `1..n` with no gaps and
`n ≤ MAX_STEPS + 1`.  Moreover, when every decision for `MAX_STEPS`
consecutive rounds is an action *on a registered tool, with pairwise-distinct
`(tool, input)` pairs* (and the confidence replies and the final reflection
parse to dicts, so no exception escapes), the run terminates with the fixed
step-limit message and exactly `MAX_STEPS + 1` Steps.  The distinctness and
registered-tool provisos are forced by `c1_counterexample`: without them the
loop guard or the unknown-tool check ends the run earlier with a different
message. -/
theorem c1_step_indices_bounded :
    (∀ (reg : Registry) (env : Env),
      (resSteps (reason reg env)).map Step.idx
        = List.range' 1 (resSteps (reason reg env)).length ∧
      (resSteps (reason reg env)).length ≤ MAX_STEPS + 1) ∧
    (∀ (reg : Registry) (env : Env) (p : Nat → List Char × List Char),
      (∀ k, k < MAX_STEPS → decisionAction (roundRaw env k) = some (p k)) →
      (∀ k, k < MAX_STEPS → (p k).1 ≠ [] ∧ (reg (p k).1).isSome = true) →
      (∀ k, k < MAX_STEPS → ∀ j, j < k → p j ≠ p k) →
      (∀ i, 1 ≤ i → i ≤ MAX_STEPS → isOkE (scoreObservation (env.scoreRaw i)) = true) →
      decisionIsDict (roundRaw env MAX_STEPS) = true →
      resFinal (reason reg env) = maxStepsMsg ∧
      (resSteps (reason reg env)).length = MAX_STEPS + 1) := by
  constructor
  · intro reg env
    cases hres : reason reg env with
    | error e => simp [resSteps]
    | ok r =>
      obtain ⟨kvs0, hp0, hloop⟩ := reason_ok_inv hres
      obtain ⟨h1, h2, h3⟩ := loop_idx_inv reg env MAX_STEPS 0
        ⟨[], { idx := 1, thought := pyGetD kvs0 thoughtKey noThoughtD }, kvs0, [],
         [{ idx := 1, thought := pyGetD kvs0 thoughtKey noThoughtD }], []⟩ r rfl rfl hloop
      simp only [resSteps]
      exact ⟨h1, by omega⟩
  · intro reg env p hact hreg hdist hsc hlast
    obtain ⟨kvs0, hp0, hka0⟩ := decisionAction_inv (hact 0 (by decide))
    have ha0 : asObj (parse_json_safe env.initRaw) = .ok kvs0 := by
      have hrr : env.initRaw = roundRaw env 0 := rfl
      rw [hrr, hp0]
      rfl
    obtain ⟨r, hr', hfin, hlen⟩ :=
      loop_allActions reg env p hact hreg hdist hsc hlast MAX_STEPS 0
        ⟨[], { idx := 1, thought := pyGetD kvs0 thoughtKey noThoughtD }, kvs0, [],
         [{ idx := 1, thought := pyGetD kvs0 thoughtKey noThoughtD }], []⟩
        (by omega) hp0 rfl
    have hres : reason reg env = .ok r := by
      rw [reason]
      simp only [ha0]
      exact hr'
    rw [hres]
    exact ⟨hfin, by simpa using hlen⟩

/-- **C1** witness: six pairwise-distinct `echo` actions exhaust the step
budget and end with the step-limit message after 7 Steps. -/
theorem c1_witness :
    resFinal (reason reg0 envDistinct) = maxStepsMsg ∧
    (resSteps (reason reg0 envDistinct)).length = MAX_STEPS + 1 :=
  c1_step_indices_bounded.2 reg0 envDistinct pDistinct
    (by decide) (by decide) (by decide) (by decide) (by decide)

/-- **C7** — confirmed.  The Loop Guard compares exact, case-sensitive
`(tool_name, tool_input)` pairs, each trimmed once by the orchestrator when
it reads the decision (`.strip()` on lines 144–145): (i) Scenario D — two
consecutive `echo("hi")` actions terminate the run at Step 2 with a
final answer containing the repeated-action marker, and the guard set holds
exactly one entry; (ii) case-sensitivity — `echo("hi")` then `echo("Hi")`
does *not* trip the guard (both pairs are recorded); (iii) trimming —
`echo("hi")` then `echo(" hi ")` *does* trip it, because the input is
stripped before comparison, and the guard set still holds one entry. -/
theorem c7_loop_guard_pairs :
    ((resSteps (reason reg0 envD)).map Step.idx = [1, 2] ∧
     resFinal (reason reg0 envD) = repeatedMsg "echo".data "hi".data ∧
     containsSub "Repeated".data (resFinal (reason reg0 envD)) = true ∧
     resSeen (reason reg0 envD) = [("echo".data, "hi".data)]) ∧
    ((resSteps (reason reg0 envCase)).map Step.idx = [1, 2, 3] ∧
     resFinal (reason reg0 envCase) = "done".data ∧
     resSeen (reason reg0 envCase) = [("echo".data, "hi".data), ("echo".data, "Hi".data)]) ∧
    ((resSteps (reason reg0 envTrim)).map Step.idx = [1, 2] ∧
     resFinal (reason reg0 envTrim) = repeatedMsg "echo".data "hi".data ∧
     resSeen (reason reg0 envTrim) = [("echo".data, "hi".data)]) := by
  refine ⟨⟨?_, ?_, ?_, ?_⟩, ⟨?_, ?_, ?_⟩, ⟨?_, ?_, ?_⟩⟩ <;> decide

/-- **C1** — counterexample to the claim as stated.  In the run below every
decision the model ever produces is an action (the same `echo("hi")` each
round, as witnessed by the two environment equations), yet the run terminates
after 2 Steps with the repeated-action message — not with the step-limit
message after `MAX_STEPS + 1 = 7` Steps: the scenario sentence omits that the
actions must neither repeat a pair nor name an unknown tool. -/
theorem c1_counterexample :
    envD.initRaw = actionRaw "echo".data "hi".data ∧
    envD.reflectRaw = (fun _ => actionRaw "echo".data "hi".data) ∧
    decisionAction (actionRaw "echo".data "hi".data) = some ("echo".data, "hi".data) ∧
    (resSteps (reason reg0 envD)).length = 2 ∧
    resFinal (reason reg0 envD) ≠ maxStepsMsg := by
  refine ⟨rfl, rfl, by decide, by decide, by decide⟩

/-- **C2** — counterexample to the claim as stated.  A Final decision whose
`final_answer` field is the empty string terminates the run with an empty
final answer recorded on Step 1, so *no* Step carries a non-empty final
answer. -/
theorem c2_counterexample :
    (resSteps (reason reg0 envEmptyFinal)).map Step.final_answer = [some []] ∧
    resFinal (reason reg0 envEmptyFinal) = [] := by
  exact ⟨by decide, by decide⟩

/-- **C4** — counterexample to the claim as stated.  In a run with one
action round and then a final decision, the sink is invoked three times with
snapshot indices `1, 1, 2`: Step 1 is emitted when opened (line 133) and
again after its observation is scored (line 176), so the invocation order is
*not* strictly increasing in index. -/
theorem c4_counterexample :
    (resEmitted (reason reg0 envOneAction)).map Step.idx = [1, 1, 2] ∧
    ¬ List.Chain' (· < ·) ((resEmitted (reason reg0 envOneAction)).map Step.idx) := by
  have h : (resEmitted (reason reg0 envOneAction)).map Step.idx = [1, 1, 2] := by decide
  refine ⟨h, ?_⟩
  rw [h]
  simp [List.chain'_cons]

/-- **C8** — counterexample to the claim as stated.  The observation
recorded for a raising tool begins with `[Tool Error] ` (capital E), not with
the claimed marker `[Tool error] `; and the run continues to a second step
rather than terminating. -/
theorem c8_counterexample :
    (resSteps (reason regBoom envBoom)).map Step.observation =
      [some ("[Tool Error] ValueError: bad".data ++ ['\n'] ++ "tb".data), none] ∧
    startsWithL "[Tool Error] ".data
      ("[Tool Error] ValueError: bad".data ++ ['\n'] ++ "tb".data) = true ∧
    startsWithL "[Tool error] ".data
      ("[Tool Error] ValueError: bad".data ++ ['\n'] ++ "tb".data) = false ∧
    (resSteps (reason regBoom envBoom)).length = 2 := by
  refine ⟨by decide, by decide, by decide, by decide⟩

end Agent
